import Mathlib

/-!
# Verification of the EVE-flipper market scanner

A shallow embedding, in Lean, of the parts of the `eve-flipper` repository that
the specification's claims are about:

* the universe-graph BFS routines (`graph` package: `ShortestPath`,
  `ShortestPathMinSecurity`, `SystemsWithinRadius`, `SystemsWithinRadiusMinSecurity`);
* the public-contract scanner (`engine` package: `ScanContracts` and its helpers);
* the alert pipeline (`api` package: `CheckWatchlistAlerts`, `SendAlert`,
  db `GetLastAlertTime`);
* the flip-result persistence (`db` package: `InsertFlipResults`).

Go `float64` values are modelled as exact rationals (`ℚ`), machine integers as
`Int`/`Nat`.  `math.Exp` is modelled by an abstract parameter `pexp : ℚ → ℚ`
constrained (where needed) by the property of the real exponential that the code
relies on: on negative arguments it yields values in `(0, 1)` (`ExpLike`).
Go maps are modelled as association lists whose construction only ever inserts
fresh keys (or first-insert-wins), matching each use in the source.

The two BFS loops run on an explicit fuel.  The sum
`(unvisited vertices) + (queue length)` strictly decreases at every iteration,
and the fuel supplied by the entry points exceeds the initial value of that
measure, so the cutoff branch is unreachable; `spLoop_correct` establishes the
loop's input/output behaviour regardless.
-/

set_option maxRecDepth 4000

namespace EveFlipper

/-- Association-list lookup, first binding wins.  Models reading a Go map in the
code below: all map constructions in the embedded code either insert only fresh
keys or deliberately keep the first insertion, so the first binding is the map's
binding. -/
def alookup {β : Type} : List (Int × β) → Int → Option β
  | [], _ => none
  | (k, v) :: rest, key => if key = k then some v else alookup rest key

theorem alookup_nil {β : Type} (k : Int) : alookup ([] : List (Int × β)) k = none := rfl

theorem alookup_cons {β : Type} (k0 : Int) (v0 : β) (rest : List (Int × β)) (k : Int) :
    alookup ((k0, v0) :: rest) k = if k = k0 then some v0 else alookup rest k := rfl

theorem alookup_eq_none_iff {β : Type} (l : List (Int × β)) (k : Int) :
    alookup l k = none ↔ k ∉ l.map Prod.fst := by
  induction l with
  | nil => simp [alookup]
  | cons p rest ih =>
    obtain ⟨k0, v0⟩ := p
    by_cases hk : k = k0 <;> simp [alookup, hk, ih]

theorem alookup_isSome_iff {β : Type} (l : List (Int × β)) (k : Int) :
    (alookup l k).isSome = true ↔ k ∈ l.map Prod.fst := by
  rcases h : alookup l k with _ | v
  · rw [alookup_eq_none_iff] at h
    simp [h]
  · simp only [Option.isSome_some, true_iff]
    by_contra hk
    rw [← alookup_eq_none_iff] at hk
    rw [h] at hk
    exact Option.noConfusion hk

section Graph

/-!
## Universe graph (`graph` package, `src/internal/esi/history.go`)

The `Universe` structure itself is not among the provided sources (only its
uses are); its fields are exactly those the BFS code reads: the adjacency map,
the per-system security map, and the system → region map.
-/

/-- The universe graph.  `Adj` is the undirected adjacency list over systems
(as stored: a map from system to its neighbor list), `SystemSecurity` the
security rating per system, `SystemRegion` the region per system. -/
structure Universe where
  Adj : List (Int × List Int)
  SystemSecurity : List (Int × ℚ)
  SystemRegion : List (Int × Int)

/-- `u.Adj[current]` — a missing key yields the empty neighbor list, as ranging
over a missing Go map entry does. -/
def adjOf (u : Universe) (v : Int) : List Int := (alookup u.Adj v).getD []

/-- The neighbor filter:
`if minSecurity > 0 { if sec, ok := u.SystemSecurity[neighbor]; !ok || sec < minSecurity { continue } }`.
A neighbor is allowed iff no filter is active, or its security is known and not
below the floor. -/
def nbrAllowed (u : Universe) (minSecurity : ℚ) (nbr : Int) : Bool :=
  if minSecurity > 0 then
    match alookup u.SystemSecurity nbr with
    | none => false
    | some sec => decide (¬ sec < minSecurity)
  else true

/-- The endpoint pre-check of `ShortestPathMinSecurity`:
`if sec, ok := u.SystemSecurity[v]; ok && sec < minSecurity`. -/
def secKnownBelow (u : Universe) (minSecurity : ℚ) (v : Int) : Bool :=
  match alookup u.SystemSecurity v with
  | none => false
  | some sec => decide (sec < minSecurity)

/-- All vertices that can ever be inserted by a BFS beyond its origin: the
members of the adjacency lists.  Used only for the fuel bound. -/
def verts (u : Universe) : List Int := (u.Adj.map Prod.snd).flatten

theorem alookup_mem_snd {β : Type} : ∀ (l : List (Int × β)) (k : Int) (v : β),
    alookup l k = some v → v ∈ l.map Prod.snd := by
  intro l
  induction l with
  | nil => intro k v h; exact absurd h (by simp [alookup])
  | cons p rest ih =>
    intro k v h
    obtain ⟨k0, v0⟩ := p
    rw [alookup_cons] at h
    by_cases hk : k = k0
    · rw [if_pos hk] at h
      cases h
      simp
    · rw [if_neg hk] at h
      simpa using Or.inr (ih k v h)

theorem adjOf_subset_verts (u : Universe) (v : Int) : ∀ x ∈ adjOf u v, x ∈ verts u := by
  intro x hx
  unfold adjOf at hx
  rcases h : alookup u.Adj v with _ | l
  · rw [h] at hx
    simp at hx
  · rw [h] at hx
    simp only [Option.getD_some] at hx
    exact List.mem_flatten.mpr ⟨l, alookup_mem_snd u.Adj v l h, hx⟩

/-- Number of verts not yet in the dist map; with the queue length it forms the
strictly decreasing measure of both BFS loops. -/
def unvisitedCount (u : Universe) (dist : List (Int × ℕ)) : ℕ :=
  ((verts u).toFinset \ (dist.map Prod.fst).toFinset).card

/-!
### `ShortestPathMinSecurity` (BFS with early return on finding `dest`)
-/

/-- The body of `for _, neighbor := range u.Adj[current]` in
`ShortestPathMinSecurity`: skip filtered or visited neighbors; on a fresh
neighbor equal to `dest` return `nd` (= current distance + 1); otherwise record
its distance and push it on the queue.  Returns
`(early-return value?, dist, queue)`. -/
def spNbrLoop (u : Universe) (minSecurity : ℚ) (dest : Int) (nd : ℕ) :
    List Int → List (Int × ℕ) → List Int → Option ℕ × List (Int × ℕ) × List Int
  | [], dist, queue => (none, dist, queue)
  | nbr :: rest, dist, queue =>
    if nbrAllowed u minSecurity nbr = false then spNbrLoop u minSecurity dest nd rest dist queue
    else if (alookup dist nbr).isSome then spNbrLoop u minSecurity dest nd rest dist queue
    else if nbr = dest then (some nd, dist, queue)
    else spNbrLoop u minSecurity dest nd rest ((nbr, nd) :: dist) (queue ++ [nbr])

/-- The outer `for len(queue) > 0` loop of `ShortestPathMinSecurity`.  The fuel
only bounds the iteration count; `ShortestPathMinSecurity` supplies more fuel
than the strictly decreasing measure `unvisitedCount + queue length`, so the
`0` branch is never taken from the entry point. -/
def spLoop (u : Universe) (minSecurity : ℚ) (dest : Int) :
    ℕ → List (Int × ℕ) → List Int → Int
  | 0, _, _ => -1
  | _ + 1, _, [] => -1
  | fuel + 1, dist, current :: rest =>
    match spNbrLoop u minSecurity dest ((alookup dist current).getD 0 + 1)
        (adjOf u current) dist rest with
    | (some nd, _, _) => (nd : Int)
    | (none, dist2, queue2) => spLoop u minSecurity dest fuel dist2 queue2

/-- `ShortestPathMinSecurity` returns the shortest jump count using only systems
with security ≥ `minSecurity` (`minSecurity ≤ 0`: no filter); `-1` if no path. -/
def ShortestPathMinSecurity (u : Universe) (origin dest : Int) (minSecurity : ℚ) : Int :=
  if origin = dest then 0
  else if minSecurity > 0 ∧ secKnownBelow u minSecurity origin = true then -1
  else if minSecurity > 0 ∧ secKnownBelow u minSecurity dest = true then -1
  else spLoop u minSecurity dest ((verts u).length + 2) [(origin, 0)] [origin]

/-- `ShortestPath` is the unfiltered BFS distance. -/
def ShortestPath (u : Universe) (origin dest : Int) : Int :=
  ShortestPathMinSecurity u origin dest 0

/-!
### `SystemsWithinRadiusMinSecurity` (BFS collecting all systems within
`maxJumps`)
-/

/-- The neighbor loop of `SystemsWithinRadiusMinSecurity`: record distances of
fresh, allowed neighbors. -/
def radNbrLoop (u : Universe) (minSecurity : ℚ) (nd : ℕ) :
    List Int → List (Int × ℕ) → List Int → List (Int × ℕ) × List Int
  | [], dist, queue => (dist, queue)
  | nbr :: rest, dist, queue =>
    if nbrAllowed u minSecurity nbr = false then radNbrLoop u minSecurity nd rest dist queue
    else if (alookup dist nbr).isSome then radNbrLoop u minSecurity nd rest dist queue
    else radNbrLoop u minSecurity nd rest ((nbr, nd) :: dist) (queue ++ [nbr])

/-- The outer loop of `SystemsWithinRadiusMinSecurity`: pop `current`, skip its
expansion when its distance has reached `maxJumps`, otherwise expand its
neighbors.  Fuel as in `spLoop`. -/
def radLoop (u : Universe) (minSecurity : ℚ) (maxJumps : Int) :
    ℕ → List (Int × ℕ) → List Int → List (Int × ℕ)
  | 0, dist, _ => dist
  | _ + 1, dist, [] => dist
  | fuel + 1, dist, current :: rest =>
    let d := (alookup dist current).getD 0
    if maxJumps ≤ (d : Int) then radLoop u minSecurity maxJumps fuel dist rest
    else
      match radNbrLoop u minSecurity (d + 1) (adjOf u current) dist rest with
      | (dist2, queue2) => radLoop u minSecurity maxJumps fuel dist2 queue2

/-- `SystemsWithinRadiusMinSecurity` returns the systems reachable within
`maxJumps` through systems of security ≥ `minSecurity`, mapped to their BFS
distance.  The origin is inserted with distance 0 before the loop. -/
def SystemsWithinRadiusMinSecurity (u : Universe) (origin : Int) (maxJumps : Int)
    (minSecurity : ℚ) : List (Int × ℕ) :=
  radLoop u minSecurity maxJumps ((verts u).length + 2) [(origin, 0)] [origin]

/-- `SystemsWithinRadius` delegates with no security filter. -/
def SystemsWithinRadius (u : Universe) (origin : Int) (maxJumps : Int) : List (Int × ℕ) :=
  SystemsWithinRadiusMinSecurity u origin maxJumps 0

/-!
### The BFS loops never overwrite an existing distance entry
-/

theorem radNbrLoop_preserves (u : Universe) (mS : ℚ) (nd : ℕ) (k : Int) (d : ℕ) :
    ∀ nbrs dist queue, alookup dist k = some d →
      alookup (radNbrLoop u mS nd nbrs dist queue).1 k = some d := by
  intro nbrs
  induction nbrs with
  | nil => intro dist queue h; simpa [radNbrLoop] using h
  | cons nbr rest ih =>
    intro dist queue h
    by_cases h1 : nbrAllowed u mS nbr = false
    · rw [radNbrLoop, if_pos h1]; exact ih dist queue h
    · rw [radNbrLoop, if_neg h1]
      by_cases h2 : (alookup dist nbr).isSome
      · rw [if_pos h2]; exact ih dist queue h
      · rw [if_neg h2]
        refine ih _ _ ?_
        rw [alookup_cons]
        have hne : k ≠ nbr := by
          intro he
          subst he
          rw [h] at h2
          exact h2 rfl
        rw [if_neg hne]
        exact h

theorem radLoop_preserves (u : Universe) (mS : ℚ) (mJ : Int) (k : Int) (d : ℕ) :
    ∀ fuel dist queue, alookup dist k = some d →
      alookup (radLoop u mS mJ fuel dist queue) k = some d := by
  intro fuel
  induction fuel with
  | zero => intro dist queue h; simpa [radLoop] using h
  | succ n ih =>
    intro dist queue h
    match queue with
    | [] => simpa [radLoop] using h
    | current :: rest =>
      rw [radLoop]
      by_cases hj : mJ ≤ (((alookup dist current).getD 0 : ℕ) : Int)
      · simp only [hj, if_true]
        exact ih dist rest h
      · simp only [hj, if_false]
        exact ih _ _ (radNbrLoop_preserves u mS _ k d _ dist rest h)

/-- C10.  For every origin, radius and security floor, the map returned by
`SystemsWithinRadiusMinSecurity` contains the origin at distance 0: the origin
is seeded before the loop and the loop only ever inserts keys that are absent,
so the security filter (applied to expanded neighbors only) never removes or
masks the origin entry — even when the origin's own security is below the
floor. -/
theorem systemsWithinRadiusMinSecurity_origin_mem (u : Universe) (origin : Int)
    (maxJumps : Int) (minSecurity : ℚ) (_hmj : 0 ≤ maxJumps) :
    alookup (SystemsWithinRadiusMinSecurity u origin maxJumps minSecurity) origin = some 0 := by
  unfold SystemsWithinRadiusMinSecurity
  exact radLoop_preserves u minSecurity maxJumps origin 0 _ _ _ (by simp [alookup])

/-- Witness for C10 at a concrete universe whose origin lies below the security
floor: system 7 has security 0.1 < 0.5, yet is in its own radius set at
distance 0. -/
theorem systemsWithinRadiusMinSecurity_origin_mem_witness :
    (0 : Int) ≤ 3 ∧
      alookup
        (SystemsWithinRadiusMinSecurity
          { Adj := [(7, [8]), (8, [7])], SystemSecurity := [(7, 1/10), (8, 9/10)],
            SystemRegion := [] } 7 3 (1/2)) 7 = some 0 :=
  ⟨by norm_num,
    systemsWithinRadiusMinSecurity_origin_mem
      { Adj := [(7, [8]), (8, [7])], SystemSecurity := [(7, 1/10), (8, 9/10)],
        SystemRegion := [] } 7 3 (1/2) (by norm_num)⟩

/-!
### Walks

`Walk u ok a v n` holds when the graph has a walk of `n` edges from `a` to `v`
whose every step lands on a vertex passing the filter `ok` (the start `a` is
not filtered, matching the BFS, which never filters the origin).  `WalkA`
additionally avoids `dest` at every step; it is the technical device for the
BFS optimality invariant, since the BFS never expands `dest`.
-/

inductive Walk (u : Universe) (ok : Int → Bool) (a : Int) : Int → ℕ → Prop
  | refl : Walk u ok a a 0
  | step {b c : Int} {n : ℕ} :
      Walk u ok a b n → c ∈ adjOf u b → ok c = true → Walk u ok a c (n + 1)

inductive WalkA (u : Universe) (ok : Int → Bool) (a dest : Int) : Int → ℕ → Prop
  | refl : WalkA u ok a dest a 0
  | step {b c : Int} {n : ℕ} :
      WalkA u ok a dest b n → c ∈ adjOf u b → ok c = true → c ≠ dest →
      WalkA u ok a dest c (n + 1)

theorem WalkA.toWalk {u : Universe} {ok : Int → Bool} {a dest v : Int} {n : ℕ}
    (h : WalkA u ok a dest v n) : Walk u ok a v n := by
  induction h with
  | refl => exact Walk.refl
  | step _ hadj hok _ ih => exact Walk.step ih hadj hok

theorem Walk.mono {u : Universe} {ok1 ok2 : Int → Bool} {a v : Int} {n : ℕ}
    (hok : ∀ x, ok1 x = true → ok2 x = true) (h : Walk u ok1 a v n) : Walk u ok2 a v n := by
  induction h with
  | refl => exact Walk.refl
  | step _ hadj h1 ih => exact Walk.step ih hadj (hok _ h1)

theorem WalkA.zero_inv {u : Universe} {ok : Int → Bool} {a dest v : Int}
    (h : WalkA u ok a dest v 0) : v = a := by
  cases h
  rfl

theorem WalkA.succ_inv {u : Universe} {ok : Int → Bool} {a dest c : Int} {n : ℕ}
    (h : WalkA u ok a dest c (n + 1)) :
    ∃ b, WalkA u ok a dest b n ∧ c ∈ adjOf u b ∧ ok c = true ∧ c ≠ dest := by
  cases h with
  | step hb hadj hok hne => exact ⟨_, hb, hadj, hok, hne⟩

/-- Decomposition of a walk at its first arrival at `dest`: either the endpoint
is not `dest` and some dest-avoiding walk of no greater length reaches it, or
some dest-avoiding walk reaches a neighbor of `dest` within the length budget. -/
theorem walk_firstHit {u : Universe} {ok : Int → Bool} {a dest : Int} (ha : a ≠ dest) :
    ∀ {c : Int} {n : ℕ}, Walk u ok a c n →
      (c ≠ dest ∧ ∃ j, j ≤ n ∧ WalkA u ok a dest c j) ∨
      (∃ w j, WalkA u ok a dest w j ∧ dest ∈ adjOf u w ∧ ok dest = true ∧ j + 1 ≤ n) := by
  intro c n h
  induction h with
  | refl => exact Or.inl ⟨ha, 0, le_refl 0, WalkA.refl⟩
  | step _ hadj hok ih =>
    rename_i b c n hw
    rcases ih with ⟨hbne, j, hj, hwa⟩ | ⟨w, j, hwa, hdadj, hdok, hj⟩
    · by_cases hc : c = dest
      · subst hc
        exact Or.inr ⟨b, j, hwa, hadj, hok, by omega⟩
      · exact Or.inl ⟨hc, j + 1, by omega, WalkA.step hwa hadj hok hc⟩
    · exact Or.inr ⟨w, j, hwa, hdadj, hdok, by omega⟩

theorem walk_to_dest {u : Universe} {ok : Int → Bool} {a dest : Int} {n : ℕ}
    (ha : a ≠ dest) (h : Walk u ok a dest n) :
    ∃ w j, WalkA u ok a dest w j ∧ dest ∈ adjOf u w ∧ ok dest = true ∧ j + 1 ≤ n := by
  rcases walk_firstHit ha h with ⟨hne, _⟩ | hit
  · exact absurd rfl hne
  · exact hit

/-!
### Characterization of the neighbor loop
-/

theorem spNbrLoop_spec (u : Universe) (mS : ℚ) (dest : Int) (nd : ℕ) :
    ∀ (nbrs : List Int) (dist : List (Int × ℕ)) (queue : List Int), ∃ new : List Int,
      (spNbrLoop u mS dest nd nbrs dist queue).2.2 = queue ++ new ∧
      (∀ k, alookup (spNbrLoop u mS dest nd nbrs dist queue).2.1 k =
        if k ∈ new then some nd else alookup dist k) ∧
      (∀ x ∈ new, x ∈ nbrs ∧ nbrAllowed u mS x = true ∧ x ≠ dest ∧ alookup dist x = none) ∧
      new.Nodup ∧
      ((spNbrLoop u mS dest nd nbrs dist queue).1 = none →
        ∀ w ∈ nbrs, nbrAllowed u mS w = true →
          (alookup dist w).isSome = true ∨ (w ≠ dest ∧ w ∈ new)) ∧
      (∀ r, (spNbrLoop u mS dest nd nbrs dist queue).1 = some r →
        r = nd ∧ dest ∈ nbrs ∧ nbrAllowed u mS dest = true ∧ alookup dist dest = none) ∧
      ((spNbrLoop u mS dest nd nbrs dist queue).2.1.map Prod.fst =
        new.reverse ++ dist.map Prod.fst) := by
  intro nbrs
  induction nbrs with
  | nil =>
    intro dist queue
    refine ⟨[], by simp [spNbrLoop], fun k => by simp [spNbrLoop], by simp, List.nodup_nil,
      fun _ w hw => absurd hw (List.not_mem_nil w), fun r hr => ?_, by simp [spNbrLoop]⟩
    exact absurd hr (by simp [spNbrLoop])
  | cons nbr rest ih =>
    intro dist queue
    by_cases h1 : nbrAllowed u mS nbr = false
    · obtain ⟨new, p1, p2, p3, p4, p5, p6, p7⟩ := ih dist queue
      have heq : spNbrLoop u mS dest nd (nbr :: rest) dist queue =
          spNbrLoop u mS dest nd rest dist queue := by
        rw [spNbrLoop, if_pos h1]
      refine ⟨new, by rw [heq]; exact p1, by rw [heq]; exact p2, ?_, p4, ?_, ?_, by rw [heq]; exact p7⟩
      · intro x hx
        obtain ⟨hm, hb, hd, hn⟩ := p3 x hx
        exact ⟨List.mem_cons_of_mem nbr hm, hb, hd, hn⟩
      · intro hnone w hw hwb
        rcases List.mem_cons.mp hw with hweq | hwm
        · subst hweq
          rw [hwb] at h1
          exact absurd h1 (by simp)
        · exact p5 (by rw [heq] at hnone; exact hnone) w hwm hwb
      · intro r hr
        rw [heq] at hr
        obtain ⟨ha, hb, hc, hd⟩ := p6 r hr
        exact ⟨ha, List.mem_cons_of_mem nbr hb, hc, hd⟩
    · by_cases h2 : (alookup dist nbr).isSome = true
      · obtain ⟨new, p1, p2, p3, p4, p5, p6, p7⟩ := ih dist queue
        have heq : spNbrLoop u mS dest nd (nbr :: rest) dist queue =
            spNbrLoop u mS dest nd rest dist queue := by
          rw [spNbrLoop, if_neg h1, if_pos h2]
        refine ⟨new, by rw [heq]; exact p1, by rw [heq]; exact p2, ?_, p4, ?_, ?_,
          by rw [heq]; exact p7⟩
        · intro x hx
          obtain ⟨hm, hb, hd, hn⟩ := p3 x hx
          exact ⟨List.mem_cons_of_mem nbr hm, hb, hd, hn⟩
        · intro hnone w hw hwb
          rcases List.mem_cons.mp hw with hweq | hwm
          · subst hweq
            exact Or.inl h2
          · exact p5 (by rw [heq] at hnone; exact hnone) w hwm hwb
        · intro r hr
          rw [heq] at hr
          obtain ⟨ha, hb, hc, hd⟩ := p6 r hr
          exact ⟨ha, List.mem_cons_of_mem nbr hb, hc, hd⟩
      · have h2n : alookup dist nbr = none := by
          rcases h : alookup dist nbr with _ | v
          · rfl
          · rw [h] at h2; exact absurd rfl h2
        by_cases h3 : nbr = dest
        · have heq : spNbrLoop u mS dest nd (nbr :: rest) dist queue = (some nd, dist, queue) := by
            rw [spNbrLoop, if_neg h1, if_neg h2, if_pos h3]
          refine ⟨[], by rw [heq]; simp, fun k => by rw [heq]; simp, by simp, List.nodup_nil,
            ?_, ?_, by rw [heq]; simp⟩
          · intro hnone
            rw [heq] at hnone
            exact absurd hnone (by simp)
          · intro r hr
            rw [heq] at hr
            simp only [Option.some.injEq] at hr
            subst hr
            subst h3
            exact ⟨rfl, List.mem_cons_self nbr rest, by revert h1; cases nbrAllowed u mS nbr <;> simp,
              h2n⟩
        · obtain ⟨new, p1, p2, p3, p4, p5, p6, p7⟩ := ih ((nbr, nd) :: dist) (queue ++ [nbr])
          have heq : spNbrLoop u mS dest nd (nbr :: rest) dist queue =
              spNbrLoop u mS dest nd rest ((nbr, nd) :: dist) (queue ++ [nbr]) := by
            rw [spNbrLoop, if_neg h1, if_neg h2, if_neg h3]
          have hfreshnew : nbr ∉ new := by
            intro hmem
            obtain ⟨_, _, _, hn⟩ := p3 nbr hmem
            rw [alookup_cons, if_pos rfl] at hn
            exact Option.noConfusion hn
          refine ⟨nbr :: new, ?_, ?_, ?_, ?_, ?_, ?_, ?_⟩
          · rw [heq, p1]
            simp
          · intro k
            rw [heq, p2 k]
            by_cases hk1 : k ∈ new
            · rw [if_pos hk1, if_pos (List.mem_cons_of_mem nbr hk1)]
            · rw [if_neg hk1, alookup_cons]
              by_cases hk2 : k = nbr
              · rw [if_pos hk2, if_pos (by rw [hk2]; exact List.mem_cons_self nbr new)]
              · rw [if_neg hk2, if_neg (by simp [hk1, hk2])]
          · intro x hx
            rcases List.mem_cons.mp hx with hxe | hxm
            · subst hxe
              exact ⟨List.mem_cons_self x rest,
                by revert h1; cases nbrAllowed u mS x <;> simp, h3, h2n⟩
            · obtain ⟨hm, hb, hd, hn⟩ := p3 x hxm
              rw [alookup_cons] at hn
              have hxn : x ≠ nbr := by
                intro he
                rw [if_pos he] at hn
                exact Option.noConfusion hn
              rw [if_neg hxn] at hn
              exact ⟨List.mem_cons_of_mem nbr hm, hb, hd, hn⟩
          · exact List.nodup_cons.mpr ⟨hfreshnew, p4⟩
          · intro hnone w hw hwb
            rw [heq] at hnone
            rcases List.mem_cons.mp hw with hweq | hwm
            · subst hweq
              exact Or.inr ⟨h3, List.mem_cons_self w new⟩
            · rcases p5 hnone w hwm hwb with hvis | ⟨hwd, hwnew⟩
              · rw [alookup_cons] at hvis
                by_cases hwn : w = nbr
                · exact Or.inr ⟨by rw [hwn]; exact h3, by rw [hwn]; exact List.mem_cons_self nbr new⟩
                · rw [if_neg hwn] at hvis
                  exact Or.inl hvis
              · exact Or.inr ⟨hwd, List.mem_cons_of_mem nbr hwnew⟩
          · intro r hr
            rw [heq] at hr
            obtain ⟨ha, hb, hc, hd⟩ := p6 r hr
            rw [alookup_cons] at hd
            have hdn : dest ≠ nbr := by
              intro he
              rw [if_pos he] at hd
              exact Option.noConfusion hd
            rw [if_neg hdn] at hd
            exact ⟨ha, List.mem_cons_of_mem nbr hb, hc, hd⟩
          · rw [heq, p7]
            simp

/-!
### The BFS invariant and the master correctness lemma
-/

/-- Loop invariant of the `ShortestPathMinSecurity` BFS, for filter `ok`,
origin `a` and destination `dest`:

* `root`: the origin is recorded at distance 0;
* `sound`: every recorded distance is realized by a walk;
* `opt`: every recorded distance is minimal among dest-avoiding walks;
* `nodest`: the destination is never recorded (the loop returns instead);
* `qvis`/`qnodup`: queue entries are recorded and pairwise distinct;
* `closed`: a recorded vertex no longer in the queue has been expanded — its
  allowed neighbors are recorded and none of them is `dest` (else the loop
  would have returned);
* `shape`: the queue splits into a nonempty block at some level `D` followed by
  a block at level `D + 1`, and every vertex reachable by a dest-avoiding walk
  of length ≤ `D` is already recorded. -/
structure BfsInv (u : Universe) (ok : Int → Bool) (a dest : Int)
    (dist : List (Int × ℕ)) (queue : List Int) : Prop where
  root : alookup dist a = some 0
  sound : ∀ v d, alookup dist v = some d → Walk u ok a v d
  opt : ∀ v d, alookup dist v = some d → ∀ k, WalkA u ok a dest v k → d ≤ k
  nodest : alookup dist dest = none
  qvis : ∀ v ∈ queue, (alookup dist v).isSome = true
  qnodup : queue.Nodup
  closed : ∀ v, (alookup dist v).isSome = true → v ∉ queue →
      ∀ w ∈ adjOf u v, ok w = true → w ≠ dest ∧ (alookup dist w).isSome = true
  shape : queue = [] ∨ ∃ D Q1 Q2, queue = Q1 ++ Q2 ∧ Q1 ≠ [] ∧
      (∀ v ∈ Q1, alookup dist v = some D) ∧ (∀ v ∈ Q2, alookup dist v = some (D + 1)) ∧
      (∀ w k, WalkA u ok a dest w k → k ≤ D → (alookup dist w).isSome = true)

/-- The strictly decreasing measure of the BFS loops. -/
def bfsMeasure (u : Universe) (dist : List (Int × ℕ)) (queue : List Int) : ℕ :=
  unvisitedCount u dist + queue.length

theorem unvisitedCount_insert (u : Universe) (dist dist2 : List (Int × ℕ)) (new : List Int)
    (hkeys : dist2.map Prod.fst = new.reverse ++ dist.map Prod.fst)
    (hnodup : new.Nodup)
    (hfresh : ∀ x ∈ new, alookup dist x = none)
    (hsub : ∀ x ∈ new, x ∈ verts u) :
    unvisitedCount u dist2 + new.length = unvisitedCount u dist := by
  unfold unvisitedCount
  rw [hkeys]
  have hN : (new.reverse ++ dist.map Prod.fst).toFinset =
      new.toFinset ∪ (dist.map Prod.fst).toFinset := by
    simp [List.toFinset_append]
  rw [hN]
  have hsub2 : new.toFinset ⊆ (verts u).toFinset \ (dist.map Prod.fst).toFinset := by
    intro x hx
    rw [List.mem_toFinset] at hx
    rw [Finset.mem_sdiff, List.mem_toFinset, List.mem_toFinset]
    exact ⟨hsub x hx, (alookup_eq_none_iff dist x).mp (hfresh x hx)⟩
  have hsd : (verts u).toFinset \ (new.toFinset ∪ (dist.map Prod.fst).toFinset) =
      ((verts u).toFinset \ (dist.map Prod.fst).toFinset) \ new.toFinset := by
    ext x
    simp only [Finset.mem_sdiff, Finset.mem_union]
    tauto
  rw [hsd, ← Finset.card_sdiff_add_card_eq_card hsub2]
  congr 1
  exact (List.toFinset_card_of_nodup hnodup).symm

theorem bfsMeasure_init_lt (u : Universe) (a : Int) :
    bfsMeasure u [(a, 0)] [a] < (verts u).length + 2 := by
  unfold bfsMeasure unvisitedCount
  have h1 : ((verts u).toFinset \ ([((a : Int), (0 : ℕ))].map Prod.fst).toFinset).card ≤
      (verts u).toFinset.card := Finset.card_le_card Finset.sdiff_subset
  have h2 : (verts u).toFinset.card ≤ (verts u).length := (verts u).toFinset_card_le
  simp only [List.length_singleton]
  omega

/-- Master lemma: from any state satisfying the invariant, with enough fuel,
`spLoop` either returns `-1` and there is no walk from `a` to `dest` through the
filter, or it returns the length of a shortest such walk. -/
theorem spLoop_correct (u : Universe) (mS : ℚ) (a dest : Int) (ha : a ≠ dest) :
    ∀ (fuel : ℕ) (dist : List (Int × ℕ)) (queue : List Int),
      BfsInv u (nbrAllowed u mS) a dest dist queue →
      bfsMeasure u dist queue < fuel →
      (spLoop u mS dest fuel dist queue = -1 ∧
        ∀ n, ¬ Walk u (nbrAllowed u mS) a dest n) ∨
      (∃ k : ℕ, spLoop u mS dest fuel dist queue = (k : Int) ∧
        Walk u (nbrAllowed u mS) a dest k ∧
        ∀ n, Walk u (nbrAllowed u mS) a dest n → k ≤ n) := by
  intro fuel
  induction fuel with
  | zero => intro dist queue _ hm; exact absurd hm (Nat.not_lt_zero _)
  | succ f ih =>
    intro dist queue hinv hm
    match queue with
    | [] =>
      left
      refine ⟨rfl, ?_⟩
      have hvisA : ∀ w k, WalkA u (nbrAllowed u mS) a dest w k →
          (alookup dist w).isSome = true := by
        intro w k hw
        induction hw with
        | refl => rw [hinv.root]; rfl
        | step hwb hadj hok _ ihb =>
          exact (hinv.closed _ ihb (List.not_mem_nil _) _ hadj hok).2
      intro n hwalk
      obtain ⟨w, j, hwa, hdadj, hdok, _⟩ := walk_to_dest ha hwalk
      exact (hinv.closed w (hvisA w j hwa) (List.not_mem_nil _) dest hdadj hdok).1 rfl
    | current :: rest =>
      rcases hinv.shape with hempty | ⟨D, Q1, Q2, hsplit, hQ1ne, hQ1D, hQ2D, hcompl⟩
      · exact absurd hempty (by simp)
      match Q1, hQ1ne with
      | c1 :: t1, _ =>
      rw [List.cons_append] at hsplit
      injection hsplit with hc1 hrest
      subst hc1
      have hcurD : alookup dist current = some D := hQ1D current (List.mem_cons_self _ _)
      have harg : (alookup dist current).getD 0 + 1 = D + 1 := by rw [hcurD]; rfl
      obtain ⟨new, p1, p2, p3, p4, p5, p6, p7⟩ :=
        spNbrLoop_spec u mS dest (D + 1) (adjOf u current) dist rest
      rcases hres : spNbrLoop u mS dest (D + 1) (adjOf u current) dist rest with ⟨o, dist2, queue2⟩
      rw [hres] at p1 p2 p5 p6 p7
      replace p1 : queue2 = rest ++ new := p1
      replace p2 : ∀ k, alookup dist2 k = if k ∈ new then some (D + 1) else alookup dist k := p2
      replace p7 : dist2.map Prod.fst = new.reverse ++ dist.map Prod.fst := p7
      have hres0 : spNbrLoop u mS dest ((alookup dist current).getD 0 + 1)
          (adjOf u current) dist rest = (o, dist2, queue2) := by rw [harg]; exact hres
      -- facts about the inserted vertices
      have hnewAdj : ∀ x ∈ new, x ∈ adjOf u current := fun x hx => (p3 x hx).1
      have hnewOk : ∀ x ∈ new, nbrAllowed u mS x = true := fun x hx => (p3 x hx).2.1
      have hnewNe : ∀ x ∈ new, x ≠ dest := fun x hx => (p3 x hx).2.2.1
      have hfreshNone : ∀ x ∈ new, alookup dist x = none := fun x hx => (p3 x hx).2.2.2
      have hrestvals : ∀ v ∈ rest, alookup dist v = some D ∨ alookup dist v = some (D + 1) := by
        intro v hv
        rw [hrest] at hv
        rcases List.mem_append.mp hv with h | h
        · exact Or.inl (hQ1D v (List.mem_cons_of_mem _ h))
        · exact Or.inr (hQ2D v h)
      cases o with
      | some r =>
        have hval : spLoop u mS dest (f + 1) dist (current :: rest) = (r : Int) := by
          simp only [spLoop]
          rw [harg, hres]
        obtain ⟨hrnd, hdestadj, hdestok, _⟩ := p6 r rfl
        subst hrnd
        right
        refine ⟨D + 1, hval, Walk.step (hinv.sound current D hcurD) hdestadj hdestok, ?_⟩
        intro n hw
        obtain ⟨w, j, hwa, hwadj, hwok, hj⟩ := walk_to_dest ha hw
        have hDj : D ≤ j := by
          rcases hwv : alookup dist w with _ | dw
          · by_contra hlt
            push_neg at hlt
            have := hcompl w j hwa (by omega)
            rw [hwv] at this
            exact absurd this (by simp)
          · have hopt := hinv.opt w dw hwv j hwa
            by_cases hwq : w ∈ current :: rest
            · rcases List.mem_cons.mp hwq with hwc | hwr
              · subst hwc
                rw [hcurD] at hwv
                injection hwv with hd
                omega
              · rcases hrestvals w hwr with h | h <;> (rw [h] at hwv; injection hwv with hd; omega)
            · exact absurd ((hinv.closed w (by rw [hwv]; rfl) hwq dest hwadj hwok).1) (by simp)
        omega
      | none =>
        have hval : spLoop u mS dest (f + 1) dist (current :: rest) =
            spLoop u mS dest f dist2 queue2 := by
          simp only [spLoop]
          rw [harg, hres]
        have hnone := p5 rfl
        have hlookup2 : ∀ k, alookup dist2 k =
            if k ∈ new then some (D + 1) else alookup dist k := p2
        have hdisjrest : ∀ x ∈ new, x ∉ rest := by
          intro x hx hr
          have := hinv.qvis x (List.mem_cons_of_mem _ hr)
          rw [hfreshNone x hx] at this
          exact absurd this (by simp)
        have hcurnew : current ∉ new := by
          intro h
          rw [hfreshNone current h] at hcurD
          exact Option.noConfusion hcurD
        have hanew : a ∉ new := by
          intro h
          have hrootfresh := hfreshNone a h
          rw [hinv.root] at hrootfresh
          exact Option.noConfusion hrootfresh
        -- the new invariant, field by field
        have root2 : alookup dist2 a = some 0 := by
          rw [hlookup2 a, if_neg hanew]
          exact hinv.root
        have sound2 : ∀ v d, alookup dist2 v = some d → Walk u (nbrAllowed u mS) a v d := by
          intro v d hv
          rw [hlookup2 v] at hv
          by_cases hvn : v ∈ new
          · rw [if_pos hvn] at hv
            injection hv with hd
            subst hd
            exact Walk.step (hinv.sound current D hcurD) (hnewAdj v hvn) (hnewOk v hvn)
          · rw [if_neg hvn] at hv
            exact hinv.sound v d hv
        have opt2 : ∀ v d, alookup dist2 v = some d →
            ∀ k, WalkA u (nbrAllowed u mS) a dest v k → d ≤ k := by
          intro v d hv k hk
          rw [hlookup2 v] at hv
          by_cases hvn : v ∈ new
          · rw [if_pos hvn] at hv
            injection hv with hd
            subst hd
            cases k with
            | zero =>
              have hva := WalkA.zero_inv hk
              subst hva
              exact absurd hvn hanew
            | succ m =>
              obtain ⟨b, hkb, hbadj, hbok, _⟩ := WalkA.succ_inv hk
              rcases hbv : alookup dist b with _ | db
              · by_contra hlt
                push_neg at hlt
                have := hcompl b m hkb (by omega)
                rw [hbv] at this
                exact absurd this (by simp)
              · have hoptb := hinv.opt b db hbv m hkb
                by_cases hbq : b ∈ current :: rest
                · rcases List.mem_cons.mp hbq with hbc | hbr
                  · subst hbc
                    rw [hcurD] at hbv
                    injection hbv with hd
                    omega
                  · rcases hrestvals b hbr with h | h <;>
                      (rw [h] at hbv; injection hbv with hd; omega)
                · have := (hinv.closed b (by rw [hbv]; rfl) hbq v hbadj hbok).2
                  rw [hfreshNone v hvn] at this
                  exact absurd this (by simp)
          · rw [if_neg hvn] at hv
            exact hinv.opt v d hv k hk
        have nodest2 : alookup dist2 dest = none := by
          rw [hlookup2 dest, if_neg (fun h => hnewNe dest h rfl)]
          exact hinv.nodest
        have qvis2 : ∀ v ∈ queue2, (alookup dist2 v).isSome = true := by
          intro v hv
          rw [p1] at hv
          rw [hlookup2 v]
          rcases List.mem_append.mp hv with h | h
          · by_cases hvn : v ∈ new
            · rw [if_pos hvn]; rfl
            · rw [if_neg hvn]
              exact hinv.qvis v (List.mem_cons_of_mem _ h)
          · rw [if_pos h]; rfl
        have qnodup2 : queue2.Nodup := by
          rw [p1]
          exact ((hinv.qnodup).of_cons).append p4 (fun x hx1 hx2 => hdisjrest x hx2 hx1)
        have closed2 : ∀ v, (alookup dist2 v).isSome = true → v ∉ queue2 →
            ∀ w ∈ adjOf u v, nbrAllowed u mS w = true →
              w ≠ dest ∧ (alookup dist2 w).isSome = true := by
          intro v hvs hvq w hw hwok
          have hvnew : v ∉ new := by
            intro h
            exact hvq (by rw [p1]; exact List.mem_append_right _ h)
          have hvold : (alookup dist v).isSome = true := by
            rw [hlookup2 v, if_neg hvnew] at hvs
            exact hvs
          have hsome2 : ∀ x, (alookup dist x).isSome = true → (alookup dist2 x).isSome = true := by
            intro x hx
            rw [hlookup2 x]
            by_cases hxn : x ∈ new
            · rw [if_pos hxn]; rfl
            · rw [if_neg hxn]; exact hx
          by_cases hvc : v = current
          · subst hvc
            rcases hnone w hw hwok with hvis | ⟨hne, hmem⟩
            · refine ⟨?_, hsome2 w hvis⟩
              intro he
              subst he
              rw [hinv.nodest] at hvis
              exact absurd hvis (by simp)
            · exact ⟨hne, by rw [hlookup2 w, if_pos hmem]; rfl⟩
          · have hvrest : v ∉ rest := by
              intro h
              exact hvq (by rw [p1]; exact List.mem_append_left _ h)
            have hvqueue : v ∉ current :: rest := by
              simp only [List.mem_cons, not_or]
              exact ⟨hvc, hvrest⟩
            have hcl := hinv.closed v hvold hvqueue w hw hwok
            exact ⟨hcl.1, hsome2 w hcl.2⟩
        have shape2 : queue2 = [] ∨ ∃ D0 R1 R2, queue2 = R1 ++ R2 ∧ R1 ≠ [] ∧
            (∀ v ∈ R1, alookup dist2 v = some D0) ∧
            (∀ v ∈ R2, alookup dist2 v = some (D0 + 1)) ∧
            (∀ w k, WalkA u (nbrAllowed u mS) a dest w k → k ≤ D0 →
              (alookup dist2 w).isSome = true) := by
          have hcomplift : ∀ w k, WalkA u (nbrAllowed u mS) a dest w k → k ≤ D →
              (alookup dist2 w).isSome = true := by
            intro w k hwk hk
            have := hcompl w k hwk hk
            rw [hlookup2 w]
            by_cases hwn : w ∈ new
            · rw [if_pos hwn]; rfl
            · rw [if_neg hwn]; exact this
          by_cases ht1 : t1 = []
          · subst ht1
            by_cases hq2n : Q2 ++ new = []
            · left
              rw [p1, hrest]
              simpa using hq2n
            · right
              refine ⟨D + 1, Q2 ++ new, [], by rw [p1, hrest]; simp, hq2n, ?_, by simp, ?_⟩
              · intro v hv
                rcases List.mem_append.mp hv with h | h
                · have hvrest : v ∈ rest := by rw [hrest]; simpa using h
                  rw [hlookup2 v, if_neg (fun hn => hdisjrest v hn hvrest)]
                  exact hQ2D v h
                · rw [hlookup2 v, if_pos h]
              · intro w k hwk hk
                by_cases hkD : k ≤ D
                · exact hcomplift w k hwk hkD
                · have hkeq : k = D + 1 := by omega
                  subst hkeq
                  obtain ⟨b, hb, hbadj, hbok, _⟩ := WalkA.succ_inv hwk
                  · have hbvis := hcompl b _ hb (le_refl _)
                    rcases hbv : alookup dist b with _ | db
                    · rw [hbv] at hbvis
                      exact absurd hbvis (by simp)
                    · have hdb := hinv.opt b db hbv _ hb
                      have hbnotq2 : b ∉ queue2 := by
                        rw [p1, hrest]
                        simp only [List.nil_append, List.mem_append, not_or]
                        constructor
                        · intro hbQ2
                          have := hQ2D b hbQ2
                          rw [hbv] at this
                          injection this with hd
                          omega
                        · intro hbn
                          rw [hfreshNone b hbn] at hbv
                          exact Option.noConfusion hbv
                      have hbs2 : (alookup dist2 b).isSome = true := by
                        rw [hlookup2 b]
                        by_cases hbn : b ∈ new
                        · rw [if_pos hbn]; rfl
                        · rw [if_neg hbn, hbv]; rfl
                      exact (closed2 b hbs2 hbnotq2 w hbadj hbok).2
          · right
            refine ⟨D, t1, Q2 ++ new, by rw [p1, hrest]; simp, ht1, ?_, ?_, hcomplift⟩
            · intro v hv
              have hvrest : v ∈ rest := by rw [hrest]; exact List.mem_append_left _ hv
              rw [hlookup2 v, if_neg (fun hn => hdisjrest v hn hvrest)]
              exact hQ1D v (List.mem_cons_of_mem _ hv)
            · intro v hv
              rcases List.mem_append.mp hv with h | h
              · have hvrest : v ∈ rest := by rw [hrest]; exact List.mem_append_right _ h
                rw [hlookup2 v, if_neg (fun hn => hdisjrest v hn hvrest)]
                exact hQ2D v h
              · rw [hlookup2 v, if_pos h]
        have hinv2 : BfsInv u (nbrAllowed u mS) a dest dist2 queue2 :=
          ⟨root2, sound2, opt2, nodest2, qvis2, qnodup2, closed2, shape2⟩
        have hcount := unvisitedCount_insert u dist dist2 new p7 p4 hfreshNone
          (fun x hx => adjOf_subset_verts u current x (hnewAdj x hx))
        have hm2 : bfsMeasure u dist2 queue2 < f := by
          have hq2len : queue2.length = rest.length + new.length := by
            rw [p1, List.length_append]
          unfold bfsMeasure at hm ⊢
          rw [List.length_cons] at hm
          omega
        rcases ih dist2 queue2 hinv2 hm2 with ⟨hv1, hv2⟩ | ⟨k, hk1, hk2, hk3⟩
        · left
          exact ⟨by rw [hval]; exact hv1, hv2⟩
        · right
          exact ⟨k, by rw [hval]; exact hk1, hk2, hk3⟩

theorem bfsInv_init (u : Universe) (mS : ℚ) (a dest : Int) (ha : a ≠ dest) :
    BfsInv u (nbrAllowed u mS) a dest [(a, 0)] [a] := by
  refine ⟨by simp [alookup], ?_, ?_, ?_, ?_, by simp, ?_, ?_⟩
  · intro v d hv
    rw [alookup_cons] at hv
    by_cases hva : v = a
    · rw [if_pos hva] at hv
      injection hv with hd
      subst hva
      rw [← hd]
      exact Walk.refl
    · rw [if_neg hva] at hv
      exact absurd hv (by simp [alookup])
  · intro v d hv k _
    rw [alookup_cons] at hv
    by_cases hva : v = a
    · rw [if_pos hva] at hv
      injection hv with hd
      omega
    · rw [if_neg hva] at hv
      exact absurd hv (by simp [alookup])
  · rw [alookup_cons, if_neg (fun h => ha h.symm)]
    rfl
  · intro v hv
    rw [List.mem_singleton] at hv
    subst hv
    simp [alookup]
  · intro v hvs hvq
    exfalso
    apply hvq
    rw [alookup_cons] at hvs
    by_cases hva : v = a
    · subst hva; exact List.mem_singleton_self v
    · rw [if_neg hva] at hvs
      rw [alookup_nil] at hvs
      exact absurd hvs (by simp)
  · right
    refine ⟨0, [a], [], rfl, by simp, ?_, by simp, ?_⟩
    · intro v hv
      rw [List.mem_singleton] at hv
      subst hv
      simp [alookup]
    · intro w k hwk hk
      have hk0 : k = 0 := by omega
      subst hk0
      have hwa := WalkA.zero_inv hwk
      subst hwa
      simp [alookup]

/-- C7 (amended).  When `ShortestPathMinSecurity` finds a path (returns a
non-negative value), that value is at least the unfiltered `ShortestPath`
distance, which is then also non-negative: adding a security floor can only
increase or preserve the shortest-path value among actual paths.  (The claim
as frozen — comparing raw return values with no side condition — fails when
the floor disconnects the pair, because "no path" is encoded as `-1`; see the
counterexample.) -/
theorem shortestPath_security_floor_monotone (u : Universe) (a b : Int) (m : ℚ)
    (h0 : 0 ≤ ShortestPathMinSecurity u a b m) :
    0 ≤ ShortestPath u a b ∧ ShortestPath u a b ≤ ShortestPathMinSecurity u a b m := by
  by_cases hab : a = b
  · subst hab
    unfold ShortestPath ShortestPathMinSecurity
    simp
  · by_cases hA : m > 0 ∧ secKnownBelow u m a = true
    · rw [ShortestPathMinSecurity, if_neg hab, if_pos hA] at h0
      norm_num at h0
    · by_cases hB : m > 0 ∧ secKnownBelow u m b = true
      · rw [ShortestPathMinSecurity, if_neg hab, if_neg hA, if_pos hB] at h0
        norm_num at h0
      · have hfs : ShortestPathMinSecurity u a b m =
            spLoop u m b ((verts u).length + 2) [(a, 0)] [a] := by
          rw [ShortestPathMinSecurity, if_neg hab, if_neg hA, if_neg hB]
        rcases spLoop_correct u m a b hab ((verts u).length + 2) [(a, 0)] [a]
            (bfsInv_init u m a b hab) (bfsMeasure_init_lt u a) with ⟨hv, _⟩ | ⟨k, hk1, hk2, _⟩
        · rw [hfs, hv] at h0
          norm_num at h0
        · have hok0 : ∀ x, nbrAllowed u m x = true → nbrAllowed u 0 x = true := by
            intro x _
            simp [nbrAllowed]
          have hw0 : Walk u (nbrAllowed u 0) a b k := hk2.mono hok0
          have hfs0 : ShortestPath u a b =
              spLoop u 0 b ((verts u).length + 2) [(a, 0)] [a] := by
            rw [ShortestPath, ShortestPathMinSecurity, if_neg hab,
              if_neg (fun h => absurd h.1 (by norm_num)),
              if_neg (fun h => absurd h.1 (by norm_num))]
          rcases spLoop_correct u 0 a b hab ((verts u).length + 2) [(a, 0)] [a]
              (bfsInv_init u 0 a b hab) (bfsMeasure_init_lt u a) with ⟨_, hv2⟩ | ⟨k0, h01, _, h03⟩
          · exact absurd hw0 (hv2 k)
          · constructor
            · rw [hfs0, h01]
              exact Int.natCast_nonneg k0
            · rw [hfs0, h01, hfs, hk1]
              exact_mod_cast h03 k hw0

/-- A 3-system chain whose middle system is low-security: the only 1–3 path
passes through system 2 (security 0.4). -/
def lowSecChain : Universe :=
  { Adj := [(1, [2]), (2, [1, 3]), (3, [2])],
    SystemSecurity := [(1, 9/10), (2, 2/5), (3, 9/10)],
    SystemRegion := [] }

/-- Counterexample to C7 as frozen: with floor 0.5 the filtered search returns
`-1` (no admissible path) while the unfiltered distance is 2, so the raw
return value of `ShortestPathMinSecurity` IS smaller than `ShortestPath`. -/
theorem shortestPath_security_floor_counterexample :
    ShortestPathMinSecurity lowSecChain 1 3 (1/2) < ShortestPath lowSecChain 1 3 := by
  with_unfolding_all decide

/-- Witness for the amended C7 at a concrete universe: with floor 0.2 every
system qualifies, the filtered value is 2 ≥ 0 and bounds the unfiltered one. -/
theorem shortestPath_security_floor_monotone_witness :
    0 ≤ ShortestPathMinSecurity lowSecChain 1 3 (1/5) ∧
      (0 ≤ ShortestPath lowSecChain 1 3 ∧
        ShortestPath lowSecChain 1 3 ≤ ShortestPathMinSecurity lowSecChain 1 3 (1/5)) :=
  ⟨by with_unfolding_all decide,
    shortestPath_security_floor_monotone lowSecChain 1 3 (1/5) (by with_unfolding_all decide)⟩

end Graph

namespace Engine

/-!
## Public-contract scanner (`engine` package, the `contracts` source file)

The constants and functions below are translated from the scanner source.
`float64` becomes `ℚ`; `math.MaxFloat64` becomes the exact rational value of
that float; `math.Exp` becomes the abstract parameter `pexp`; `math.Inf(1)`
(which only ever arises as an `estimateFillDays` result) becomes `none` in an
`Option ℚ`.
-/

/-- `DefaultMinContractPrice` filters out scam/bait contracts below this ISK threshold. -/
def DefaultMinContractPrice : ℚ := 10000000

/-- `DefaultMaxContractMargin` filters out scam contracts with unrealistically high margins (%). -/
def DefaultMaxContractMargin : ℚ := 100

/-- `DefaultMinPricedRatio` (source constant name) — the minimum fraction of
item types that must have a market price. -/
def DefaultMinPricedFrac : ℚ := 8/10

/-- `MinSellOrderVolume` — minimum total sell volume to trust the price. -/
def MinSellOrderVolume : Int := 5

/-- `MinDailyVolumeForContract` — filters out items with no recent trading activity. -/
def MinDailyVolumeForContract : ℚ := 1

/-- `DefaultContractHoldDays` — default holding horizon for non-instant mode. -/
def DefaultContractHoldDays : Int := 7

/-- `DefaultContractTargetConfidence` — default minimum full-liquidation probability (%). -/
def DefaultContractTargetConfidence : ℚ := 80

/-- `ContractFillParticipation` — conservative share of daily market volume we expect to capture. -/
def ContractFillParticipation : ℚ := 35/100

/-- `ContractConservativePriceHaircut` — additional conservative markdown on expected proceeds. -/
def ContractConservativePriceHaircut : ℚ := 3/100

/-- `ContractDailyCarryRate` — opportunity/carry cost of locked capital per day. -/
def ContractDailyCarryRate : ℚ := 1/1000

/-- The exact rational value of `math.MaxFloat64` (= 2^1024 − 2^971), the
sentinel initial value of `itemPriceData.MinSellPrice`. -/
def maxFloat64 : ℚ := 179769313486231570814527423731704356798070567525844996598917476803157260780028538760589558632766878171540458953514382464234321326889464182768467546703537516986049910576551282076245490090389328944075868508455133942304583236903222948165808559332123348274797826204144723168738177180919299881250404026184124858368

/-- `MaxUnlimitedResults` — cap on the returned result list.  Modelled from the
spec: the scanner sorts by profit and keeps the top 100 ("Sort by profit
descending, keep top 100"); the constant itself is not among the provided
sources. -/
def MaxUnlimitedResults : ℕ := 100

/-- The scan parameter object.  Modelled from the spec §4.1/§4.1.3: the struct
declaration is not among the provided sources; the fields are exactly those the
contract scanner reads, plus the two generic thresholds `MinProfit` /
`MinDailyVolume` of the common parameter set (spec §4.1), which the contract
scanner does not read. -/
structure ScanParams where
  CurrentSystemID : Int := 0
  MinRouteSecurity : ℚ := 0
  SalesTaxPercent : ℚ := 0
  BrokerFeePercent : ℚ := 0
  MinMargin : ℚ := 0
  MinProfit : ℚ := 0
  MinDailyVolume : ℚ := 0
  RequireHistory : Bool := false
  MinContractPrice : ℚ := 0
  MaxContractMargin : ℚ := 0
  /-- source field: `MinPricedRatio` (knob `min_priced_ratio`). -/
  MinPricedFrac : ℚ := 0
  ContractInstantLiquidation : Bool := false
  ContractHoldDays : Int := 0
  ContractTargetConfidence : ℚ := 0

/-- `getContractFilters` returns effective filter values
`(minPrice, maxMargin, minPricedRatio)`, using defaults if params are ≤ 0. -/
def getContractFilters (params : ScanParams) : ℚ × ℚ × ℚ :=
  let minPrice := if params.MinContractPrice ≤ 0 then DefaultMinContractPrice
    else params.MinContractPrice
  let maxMargin := if params.MaxContractMargin ≤ 0 then DefaultMaxContractMargin
    else params.MaxContractMargin
  let minPricedFrac := if params.MinPricedFrac ≤ 0 then DefaultMinPricedFrac
    else params.MinPricedFrac
  (minPrice, maxMargin, minPricedFrac)

/-- `contractSellValueMultiplier`: instant liquidation pays only sales tax;
market-estimate mode pays sales tax + broker fee; negative results clamp to 0. -/
def contractSellValueMultiplier (params : ScanParams) : ℚ :=
  if params.ContractInstantLiquidation then
    let m := 1 - params.SalesTaxPercent / 100
    if m < 0 then 0 else m
  else
    let feePercent := params.SalesTaxPercent + params.BrokerFeePercent
    let m := 1 - feePercent / 100
    if m < 0 then 0 else m

/-- `contractHoldDays`: default 7, clamped to at most 180. -/
def contractHoldDays (params : ScanParams) : Int :=
  if params.ContractHoldDays ≤ 0 then DefaultContractHoldDays
  else if params.ContractHoldDays > 180 then 180
  else params.ContractHoldDays

/-- `contractTargetConfidence`: default 80, clamped to at most 100. -/
def contractTargetConfidence (params : ScanParams) : ℚ :=
  if params.ContractTargetConfidence ≤ 0 then DefaultContractTargetConfidence
  else if params.ContractTargetConfidence > 100 then 100
  else params.ContractTargetConfidence

/-- `itemPriceData` holds market data for an item type. -/
structure itemPriceData where
  MinSellPrice : ℚ := 0
  TotalSellVol : Int := 0
  SellOrderCnt : ℕ := 0
  VWAP : ℚ := 0
  DailyVolume : ℚ := 0
  HasHistory : Bool := false
deriving DecidableEq

/-- `effectiveDailyVolume`: recorded daily volume, else book depth spread over
two weeks, else 0; a nil pointer yields 0. -/
def effectiveDailyVolume (pd : Option itemPriceData) : ℚ :=
  match pd with
  | none => 0
  | some pd =>
    if pd.DailyVolume > 0 then pd.DailyVolume
    else if pd.TotalSellVol > 0 then (pd.TotalSellVol : ℚ) / 14
    else 0

/-- `estimateFillDays`: days to liquidate `quantity` at participation-limited
throughput; `none` models the `math.Inf(1)` results. -/
def estimateFillDays (quantity : Int) (dailyVol : ℚ) : Option ℚ :=
  if quantity ≤ 0 then some 0
  else if dailyVol ≤ 0 then none
  else
    let executablePerDay := dailyVol * ContractFillParticipation
    if executablePerDay ≤ 0 then none
    else some ((quantity : ℚ) / executablePerDay)

/-- `fillProbabilityWithinDays`: `1 − exp(−horizon/fillDays)` clamped to
`[0, 1]`; 0 for a non-positive horizon or infinite fill time, 1 for a
non-positive fill time.  `pexp` stands for `math.Exp`. -/
def fillProbabilityWithinDays (pexp : ℚ → ℚ) (fillDays : Option ℚ) (horizonDays : ℚ) : ℚ :=
  if horizonDays ≤ 0 then 0
  else
    match fillDays with
    | none => 0
    | some fd =>
      if fd ≤ 0 then 1
      else
        let p := 1 - pexp (-(horizonDays / fd))
        if p < 0 then 0 else if p > 1 then 1 else p

/-- The property of `math.Exp` the scanner relies on: on the (strictly
negative) arguments it is called with, the result lies in `(0, 1)`. -/
def ExpLike (pexp : ℚ → ℚ) : Prop := ∀ x : ℚ, x < 0 → 0 < pexp x ∧ pexp x < 1

/-- A market order, as read by the contract scanner.  Modelled from the spec
§3 (the `esi.MarketOrder` declaration is not among the provided sources);
fields are those the scanner reads. -/
structure MarketOrder where
  TypeID : Int := 0
  LocationID : Int := 0
  SystemID : Int := 0
  IsBuyOrder : Bool := false
  Price : ℚ := 0
  VolumeRemain : Int := 0
deriving DecidableEq

/-- A public contract, as read by the scanner.  Modelled from the spec §3 (the
`esi.PublicContract` declaration is not among the provided sources).  `ctype`
is the source's `Type` field (`Type` is reserved in Lean); `Expired` is the
value of `IsExpired()` at scan time. -/
structure PublicContract where
  ContractID : Int := 0
  ctype : String := ""
  Price : ℚ := 0
  StartLocationID : Int := 0
  Title : String := ""
  Volume : ℚ := 0
  Expired : Bool := false
deriving DecidableEq

/-- A contract item.  Modelled from the spec §3 (declaration not among the
provided sources); fields are those the scanner reads. -/
structure ContractItem where
  TypeID : Int := 0
  Quantity : Int := 0
  IsIncluded : Bool := true
  IsBlueprintCopy : Bool := false
deriving DecidableEq

/-- An SDE type record; only the name is read by the scanner. -/
structure SDEType where
  Name : String := ""
deriving DecidableEq

/-- Per-type market-history aggregates.  Modelled from the spec §4.1.3:
`fetchContractItemsHistory` computes, per type with nonempty history, the
30-day VWAP (`CalcVWAP`) and the 7-day average daily volume (`avgDailyVolume`)
and marks the type as having history; those helpers are not among the provided
sources, so the per-type aggregates are taken as the fixed fetched history. -/
structure HistoryAgg where
  VWAP : ℚ := 0
  DailyVolume : ℚ := 0
deriving DecidableEq

/-- The execution plan of selling a quantity into a book.  Modelled from the
spec §4.1.2/§8.9 (the `ComputeExecutionPlan` source is not among the provided
files): walking the book best-price-first, `CanFill` iff the whole quantity is
absorbed, `ExpectedPrice` = volume-weighted mean of the consumed levels. -/
structure ExecutionPlan where
  CanFill : Bool := false
  ExpectedPrice : ℚ := 0
deriving DecidableEq

/-- Modelled from the spec §4.1.2/§8.9, see `ExecutionPlan`.  For the scanner's
call (`isBuy = false`, selling into resting bids) the book is walked from the
highest bid downward. -/
def ComputeExecutionPlan (book : List MarketOrder) (quantity : Int) (isBuy : Bool) :
    ExecutionPlan :=
  let sorted := book.mergeSort (fun o1 o2 =>
    if isBuy then decide (o1.Price ≤ o2.Price) else decide (o2.Price ≤ o1.Price))
  let start : ℚ := if quantity ≤ 0 then 0 else (quantity : ℚ)
  let fin := sorted.foldl (fun (st : ℚ × ℚ) o =>
    let avail : ℚ := if o.VolumeRemain ≤ 0 then 0 else (o.VolumeRemain : ℚ)
    let take := min st.1 avail
    (st.1 - take, st.2 + o.Price * take)) (start, 0)
  let consumed := start - fin.1
  { CanFill := decide (fin.1 = 0),
    ExpectedPrice := if consumed > 0 then fin.2 / consumed else 0 }

/-- Modelled from the spec: `sanitizeFloat` guards the JSON output against
non-finite float values; on the finite values of this exact-rational embedding
it is the identity. -/
def sanitizeFloat (x : ℚ) : ℚ := x

/-- Modelled from the spec: `safeDiv` divides, avoiding a non-finite result on
a zero denominator. -/
def safeDiv (a b : ℚ) : ℚ := if b = 0 then 0 else a / b

/-- `strings.Contains(strings.ToLower(name), "blueprint")`. -/
def nameHasBlueprint (s : String) : Bool :=
  decide (List.IsInfix ("blueprint".toList) (s.toLower.toList))

/-- The fixed fetched inputs of one contract scan: orders, contracts, contract
items, history, static data, and the precomputed topology/naming environment
(`buySystems` from the universe BFS; name and fallback-jump lookups standing
for the `ESI`/`SDE` services the result assembly consults, which do not affect
which contracts are returned). -/
structure ScanData where
  sellOrders : List MarketOrder := []
  buyOrdersForLiquidation : List MarketOrder := []
  allContracts : List PublicContract := []
  contractItems : List (Int × List ContractItem) := []
  history : List (Int × HistoryAgg) := []
  Types : List (Int × SDEType) := []
  Stations : List (Int × Int) := []
  SystemRegionOf : List (Int × Int) := []
  buySystems : List (Int × ℕ) := []
  stationName : Int → String := fun _ => ""
  everefStructureName : Int → String := fun _ => ""
  systemName : Int → String := fun _ => ""
  regionName : Int → String := fun _ => ""
  jumpsBetween : Int → Int → ℚ → Int := fun _ _ _ => 0

/-- Update-or-append on an association list (Go map insert). -/
def aupdate {β : Type} : List (Int × β) → Int → β → List (Int × β)
  | [], k, v => [(k, v)]
  | (k0, v0) :: rest, k, v =>
    if k = k0 then (k, v) :: rest else (k0, v0) :: aupdate rest k v

/-- The price-data accumulation over the fetched sell orders: track min price,
total volume, and order count per type (a fresh type starts at the
`math.MaxFloat64` sentinel). -/
def buildPriceData (sellOrders : List MarketOrder) : List (Int × itemPriceData) :=
  sellOrders.foldl (fun m o =>
    let pd := (alookup m o.TypeID).getD
      { MinSellPrice := maxFloat64, TotalSellVol := 0, SellOrderCnt := 0,
        VWAP := 0, DailyVolume := 0, HasHistory := false }
    aupdate m o.TypeID
      { pd with
        MinSellPrice := if o.Price < pd.MinSellPrice then o.Price else pd.MinSellPrice,
        TotalSellVol := pd.TotalSellVol + o.VolumeRemain,
        SellOrderCnt := pd.SellOrderCnt + 1 }) []

/-- The cleanup pass: drop types that kept the sentinel price; penalize the
price of types with thin books by the factor 1.5. -/
def cleanupPriceData (m : List (Int × itemPriceData)) : List (Int × itemPriceData) :=
  m.filterMap (fun p =>
    if p.2.MinSellPrice = maxFloat64 then none
    else if p.2.TotalSellVol < MinSellOrderVolume then
      some (p.1, { p.2 with MinSellPrice := p.2.MinSellPrice * (3/2) })
    else some p)

/-- The history enrichment (estimate mode): for every type with fetched history
aggregates, record VWAP and daily volume and mark the history flag.  (The
source enriches exactly the types occurring in contract items; enriching every
type with available history reads the same at every use.) -/
def enrichHistory (hist : List (Int × HistoryAgg)) (m : List (Int × itemPriceData)) :
    List (Int × itemPriceData) :=
  m.map (fun p =>
    match alookup hist p.1 with
    | some h => (p.1, { p.2 with VWAP := h.VWAP, DailyVolume := h.DailyVolume, HasHistory := true })
    | none => p)

/-- The location → system map built from the fetched orders, first insert wins;
orders with a zero location or system are skipped. -/
def marketLocationSystems (d : ScanData) : List (Int × Int) :=
  (d.sellOrders ++ d.buyOrdersForLiquidation).foldl (fun m o =>
    if o.LocationID = 0 ∨ o.SystemID = 0 then m
    else if (alookup m o.LocationID).isSome then m
    else m ++ [(o.LocationID, o.SystemID)]) []

/-- `locationToSystem`: catalog stations first, then the market-order map,
else 0. -/
def locationToSystem (stations : List (Int × Int)) (mls : List (Int × Int))
    (locationID : Int) : Int :=
  match alookup stations locationID with
  | some sysID => sysID
  | none => (alookup mls locationID).getD 0

/-- The candidate filter: item-exchange, not expired, price at or above the
effective minimum, start location resolvable to a system inside the buy
radius. -/
def candidateOK (d : ScanData) (mls : List (Int × Int)) (minContractPrice : ℚ)
    (c : PublicContract) : Bool :=
  decide (c.ctype = "item_exchange") && decide (c.Expired = false) &&
    decide (¬ c.Price < minContractPrice) &&
    (let sysID := locationToSystem d.Stations mls c.StartLocationID
     decide (sysID ≠ 0) && (alookup d.buySystems sysID).isSome)

/-- The accumulator of the per-item loop of `ScanContracts`. -/
structure ItemAcc where
  marketValue : ℚ := 0
  itemCount : Int := 0
  pricedCount : ℕ := 0
  totalTypes : ℕ := 0
  topItems : List String := []
  lowVolumeItems : ℕ := 0
  highDeviationItems : ℕ := 0
  fullLiquidationProb : ℚ := 1
  maxFillDays : ℚ := 0
  expectedGrossByFill : ℚ := 0
  hasBPO : Bool := false
deriving DecidableEq

/-- The `topItems` entry for an item (`"Nx Name"` for quantities above 1),
empty when the type is not in the catalog. -/
def topItemName (types : List (Int × SDEType)) (item : ContractItem) : List String :=
  match alookup types item.TypeID with
  | some t => if item.Quantity > 1 then [toString item.Quantity ++ ("x ") ++ t.Name] else [t.Name]
  | none => []

/-- The estimate-mode per-item pricing: prefer VWAP when available; an ask
below half the VWAP is treated as bait and priced `min(0.7·VWAP, 2·ask)` with
the high-deviation flag; without history the item is dropped under
`RequireHistory` and otherwise priced at the ask.  Returns
`(price per unit, high-deviation?)`, `none` when the item is skipped. -/
def estimateItemPrice (params : ScanParams) (pd : itemPriceData) : Option (ℚ × Bool) :=
  if pd.HasHistory ∧ pd.VWAP > 0 then
    if pd.MinSellPrice < pd.VWAP * (1/2) then
      some (min (pd.VWAP * (7/10)) (pd.MinSellPrice * 2), true)
    else
      some (min pd.VWAP pd.MinSellPrice, false)
  else if params.RequireHistory then none
  else some (pd.MinSellPrice, false)

/-- One iteration of the per-item loop of `ScanContracts` (the body of
`for _, item := range items`). -/
def evalContractItem (pexp : ℚ → ℚ) (params : ScanParams) (types : List (Int × SDEType))
    (priceData : List (Int × itemPriceData)) (buyBook : Int → List MarketOrder)
    (holdDays : Int) (acc : ItemAcc) (item : ContractItem) : ItemAcc :=
  if item.IsIncluded = false then acc
  else if item.IsBlueprintCopy then acc
  else if (match alookup types item.TypeID with
           | some t => nameHasBlueprint t.Name
           | none => false) then { acc with hasBPO := true }
  else
    let acc1 := { acc with totalTypes := acc.totalTypes + 1 }
    if params.ContractInstantLiquidation then
      let book := buyBook item.TypeID
      if book.isEmpty then acc1
      else
        let plan := ComputeExecutionPlan book item.Quantity false
        if plan.CanFill = false ∨ plan.ExpectedPrice ≤ 0 then acc1
        else
          { acc1 with
            pricedCount := acc1.pricedCount + 1,
            marketValue := acc1.marketValue + plan.ExpectedPrice * (item.Quantity : ℚ),
            itemCount := acc1.itemCount + item.Quantity,
            topItems := acc1.topItems ++ topItemName types item }
    else
      match alookup priceData item.TypeID with
      | none => acc1
      | some pd =>
        if pd.MinSellPrice = 0 ∨ pd.MinSellPrice = maxFloat64 then acc1
        else
          match estimateItemPrice params pd with
          | none => acc1
          | some (usePrice, highDev) =>
            let acc2 := if highDev then
                { acc1 with highDeviationItems := acc1.highDeviationItems + 1 }
              else acc1
            let acc3 := if pd.DailyVolume < MinDailyVolumeForContract then
                { acc2 with lowVolumeItems := acc2.lowVolumeItems + 1 }
              else acc2
            let fillDays := estimateFillDays item.Quantity (effectiveDailyVolume (some pd))
            let itemFillProb := fillProbabilityWithinDays pexp fillDays (holdDays : ℚ)
            { acc3 with
              pricedCount := acc3.pricedCount + 1,
              marketValue := acc3.marketValue + usePrice * (item.Quantity : ℚ),
              itemCount := acc3.itemCount + item.Quantity,
              fullLiquidationProb := acc3.fullLiquidationProb * itemFillProb,
              maxFillDays :=
                match fillDays with
                | none =>
                  if acc3.maxFillDays < (holdDays : ℚ) * 10 then (holdDays : ℚ) * 10
                  else acc3.maxFillDays
                | some fd => if acc3.maxFillDays < fd then fd else acc3.maxFillDays,
              expectedGrossByFill :=
                acc3.expectedGrossByFill + usePrice * (item.Quantity : ℚ) * itemFillProb,
              topItems := acc3.topItems ++ topItemName types item }

/-- The quantities derived in the non-instant (`!contractInstant`) block, with
`none` for its two `continue`s; instant mode keeps the realized values. -/
structure ExpectedOutcome where
  expectedProfit : ℚ
  expectedMargin : ℚ
  sellConfidencePct : ℚ
  estLiqDays : ℚ
  conservativeValue : ℚ
  carryCost : ℚ
deriving DecidableEq

def contractExpected (params : ScanParams) (acc : ItemAcc) (c : PublicContract)
    (profit margin effectiveValue sellValueMult : ℚ) (holdDays : Int)
    (targetConfidence : ℚ) : Option ExpectedOutcome :=
  if params.ContractInstantLiquidation then
    some { expectedProfit := profit, expectedMargin := margin, sellConfidencePct := 100,
           estLiqDays := 0, conservativeValue := effectiveValue, carryCost := 0 }
  else
    let sellConfidencePct := acc.fullLiquidationProb * 100
    if sellConfidencePct < targetConfidence then none
    else
      let conservativeGross := acc.expectedGrossByFill * (1 - ContractConservativePriceHaircut)
      let conservativeValue := conservativeGross * sellValueMult
      let carryCost := c.Price * ContractDailyCarryRate * (holdDays : ℚ)
      let expectedProfit := conservativeValue - c.Price - carryCost
      if expectedProfit ≤ 0 then none
      else
        some { expectedProfit := expectedProfit,
               expectedMargin := safeDiv expectedProfit c.Price * 100,
               sellConfidencePct := sellConfidencePct, estLiqDays := acc.maxFillDays,
               conservativeValue := conservativeValue, carryCost := carryCost }

/-- A contract-scan result row. -/
structure ContractResult where
  ContractID : Int := 0
  Title : String := ""
  Price : ℚ := 0
  MarketValue : ℚ := 0
  Profit : ℚ := 0
  MarginPercent : ℚ := 0
  ExpectedProfit : ℚ := 0
  ExpectedMarginPercent : ℚ := 0
  SellConfidence : ℚ := 0
  EstLiquidationDays : ℚ := 0
  ConservativeValue : ℚ := 0
  CarryCost : ℚ := 0
  Volume : ℚ := 0
  StationName : String := ""
  SystemName : String := ""
  RegionName : String := ""
  ItemCount : Int := 0
  Jumps : Int := 0
  ProfitPerJump : ℚ := 0
deriving DecidableEq

/-- The generated title: the contract's own (trimmed) title, else built from
the item names. -/
def contractTitle (c : PublicContract) (topItems : List String) : String :=
  let t := c.Title.trim
  if t = "" then
    if topItems.length = 1 then topItems.headI
    else if topItems.length ≤ 3 then String.intercalate (", ") topItems
    else
      String.intercalate (", ") (topItems.take 2) ++ (" + ") ++
        toString (topItems.length - 2) ++ (" more")
  else t

/-- The result-row assembly at the end of the candidate loop (title, station /
system / region naming, jump count), given the accumulated `acc`, the expected
outcome `eo`, the realized `profit` and `margin`. -/
def mkContractResultFrom (params : ScanParams) (d : ScanData) (mls : List (Int × Int))
    (c : PublicContract) (acc : ItemAcc) (eo : ExpectedOutcome)
    (profit margin : ℚ) : ContractResult :=
  let title := contractTitle c acc.topItems
  let stationName0 := d.stationName c.StartLocationID
  let sysID := locationToSystem d.Stations mls c.StartLocationID
  let sysName := if sysID ≠ 0 then d.systemName sysID else ""
  let regionName :=
    if sysID ≠ 0 then
      match alookup d.SystemRegionOf sysID with
      | some rid => d.regionName rid
      | none => ""
    else ""
  let stationName :=
    if stationName0.startsWith ("Location ") ∨ stationName0.startsWith ("Structure ") then
      let eveName := d.everefStructureName c.StartLocationID
      if eveName ≠ "" then eveName
      else if sysName ≠ "" then ("Structure @ ") ++ sysName
      else stationName0
    else stationName0
  let jumps : Int :=
    if sysID ≠ 0 then
      match alookup d.buySystems sysID with
      | some dj => (dj : Int)
      | none => d.jumpsBetween params.CurrentSystemID sysID params.MinRouteSecurity
    else 0
  let profitPerJump := if jumps > 0 then profit / (jumps : ℚ) else 0
  { ContractID := c.ContractID, Title := title, Price := c.Price,
    MarketValue := acc.marketValue, Profit := sanitizeFloat profit,
    MarginPercent := sanitizeFloat margin,
    ExpectedProfit := sanitizeFloat eo.expectedProfit,
    ExpectedMarginPercent := sanitizeFloat eo.expectedMargin,
    SellConfidence := sanitizeFloat eo.sellConfidencePct,
    EstLiquidationDays := sanitizeFloat eo.estLiqDays,
    ConservativeValue := sanitizeFloat eo.conservativeValue,
    CarryCost := sanitizeFloat eo.carryCost, Volume := c.Volume,
    StationName := stationName, SystemName := sysName,
    RegionName := regionName, ItemCount := acc.itemCount,
    Jumps := jumps, ProfitPerJump := sanitizeFloat profitPerJump }

/-- The evaluation of one candidate contract — the body of
`for _, contract := range candidates` in `ScanContracts`; `none` models every
`continue`. -/
def evalContract (pexp : ℚ → ℚ) (params : ScanParams) (d : ScanData)
    (mls : List (Int × Int)) (buyBook : Int → List MarketOrder)
    (priceData : List (Int × itemPriceData)) (sellValueMult : ℚ) (holdDays : Int)
    (targetConfidence minPricedFrac maxContractMargin : ℚ)
    (c : PublicContract) : Option ContractResult :=
  match alookup d.contractItems c.ContractID with
  | none => none
  | some items =>
    if items.isEmpty then none
    else
      let acc := items.foldl
        (evalContractItem pexp params d.Types priceData buyBook holdDays) {}
      if acc.hasBPO ∧ acc.totalTypes = 0 then none
      else if acc.totalTypes = 0 ∨ acc.pricedCount = 0 then none
      else if (acc.pricedCount : ℚ) / (acc.totalTypes : ℚ) < minPricedFrac then none
      else if params.ContractInstantLiquidation ∧ acc.pricedCount < acc.totalTypes then none
      else if 0 < acc.pricedCount ∧ (acc.lowVolumeItems : ℚ) / (acc.pricedCount : ℚ) > 1/2 then
        none
      else if 0 < acc.pricedCount ∧
          (acc.highDeviationItems : ℚ) / (acc.pricedCount : ℚ) > 3/10 then none
      else if acc.marketValue ≤ 0 then none
      else
        let effectiveValue := acc.marketValue * sellValueMult
        let profit := effectiveValue - c.Price
        if profit ≤ 0 then none
        else
          let margin := profit / c.Price * 100
          if margin > maxContractMargin then none
          else
            (contractExpected params acc c profit margin effectiveValue sellValueMult
                holdDays targetConfidence).bind fun eo =>
              if eo.expectedMargin < params.MinMargin then none
              else some (mkContractResultFrom params d mls c acc eo profit margin)

/-- The ranking key: expected profit, falling back to realized profit when it
is zero. -/
def contractSortKey (r : ContractResult) : ℚ :=
  if r.ExpectedProfit = 0 then r.Profit else r.ExpectedProfit

/-- The per-type price map the candidate loop reads: the cleaned order-book
aggregation, history-enriched in estimate mode. -/
def priceDataOf (params : ScanParams) (d : ScanData) : List (Int × itemPriceData) :=
  if params.ContractInstantLiquidation then cleanupPriceData (buildPriceData d.sellOrders)
  else enrichHistory d.history (cleanupPriceData (buildPriceData d.sellOrders))

/-- The per-type bid book (instant mode only): the fetched buy orders of that
type, in fetch order. -/
def buyBookOf (params : ScanParams) (d : ScanData) : Int → List MarketOrder := fun t =>
  if params.ContractInstantLiquidation then
    d.buyOrdersForLiquidation.filter (fun o => decide (o.TypeID = t))
  else []

/-- `ScanContracts` on the fixed fetched data `d`: build the price map from
the sell orders (with history enrichment in estimate mode), filter candidates,
evaluate each, sort by (expected) profit descending and keep the top
`MaxUnlimitedResults`.  `pexp` stands for `math.Exp`. -/
def ScanContracts (pexp : ℚ → ℚ) (params : ScanParams) (d : ScanData) : List ContractResult :=
  let filters := getContractFilters params
  let candidates := d.allContracts.filter (candidateOK d (marketLocationSystems d) filters.1)
  if candidates.isEmpty then []
  else
    let results := candidates.filterMap
      (evalContract pexp params d (marketLocationSystems d) (buyBookOf params d)
        (priceDataOf params d)
        (contractSellValueMultiplier params) (contractHoldDays params)
        (contractTargetConfidence params) filters.2.2 filters.2.1)
    (results.mergeSort (fun r1 r2 => decide (contractSortKey r2 ≤ contractSortKey r1))).take
      MaxUnlimitedResults

/-!
### Characterization of the candidate evaluation
-/

theorem ite_none_eq_some {α : Type} {c : Prop} [Decidable c] {x : Option α} {r : α} :
    (if c then none else x) = some r ↔ ¬c ∧ x = some r := by
  split <;> simp_all

set_option maxHeartbeats 1000000 in
/-- `evalContract = some r` unfolded into the conjunction of all its guards. -/
theorem evalContract_eq_some_iff {pexp : ℚ → ℚ} {params : ScanParams} {d : ScanData}
    {mls : List (Int × Int)} {bb : Int → List MarketOrder}
    {pdata : List (Int × itemPriceData)} {mult : ℚ} {hd : Int} {tc f mm : ℚ}
    {c : PublicContract} {r : ContractResult} {items : List ContractItem}
    (hitems : alookup d.contractItems c.ContractID = some items) :
    evalContract pexp params d mls bb pdata mult hd tc f mm c = some r ↔
      (¬items.isEmpty = true ∧
       (let acc := items.foldl (evalContractItem pexp params d.Types pdata bb hd) {}
        ¬(acc.hasBPO ∧ acc.totalTypes = 0) ∧
        ¬(acc.totalTypes = 0 ∨ acc.pricedCount = 0) ∧
        ¬((acc.pricedCount : ℚ) / (acc.totalTypes : ℚ) < f) ∧
        ¬(params.ContractInstantLiquidation ∧ acc.pricedCount < acc.totalTypes) ∧
        ¬(0 < acc.pricedCount ∧ (acc.lowVolumeItems : ℚ) / (acc.pricedCount : ℚ) > 1/2) ∧
        ¬(0 < acc.pricedCount ∧ (acc.highDeviationItems : ℚ) / (acc.pricedCount : ℚ) > 3/10) ∧
        ¬(acc.marketValue ≤ 0) ∧
        ¬(acc.marketValue * mult - c.Price ≤ 0) ∧
        ¬((acc.marketValue * mult - c.Price) / c.Price * 100 > mm) ∧
        ∃ eo, contractExpected params acc c (acc.marketValue * mult - c.Price)
            ((acc.marketValue * mult - c.Price) / c.Price * 100) (acc.marketValue * mult)
            mult hd tc = some eo ∧
          ¬(eo.expectedMargin < params.MinMargin) ∧
          r = mkContractResultFrom params d mls c acc eo (acc.marketValue * mult - c.Price)
            ((acc.marketValue * mult - c.Price) / c.Price * 100))) := by
  simp only [evalContract, hitems]
  by_cases hemp : items.isEmpty = true
  · have hnil : items = [] := by simpa using hemp
    subst hnil
    simp
  · simp only [hemp, if_false, not_false_iff, true_and]
    simp only [ite_none_eq_some, Option.bind_eq_some, Option.some.injEq]
    constructor
    · intro h
      obtain ⟨h0, h1, h2, h3, h4, h5, h6, h7, h8, h9, eo, heo, h10, h11⟩ := h
      exact ⟨h0, h1, h2, h3, h4, h5, h6, h7, h8, h9, eo, heo, h10, h11.symm⟩
    · intro h
      obtain ⟨h0, h1, h2, h3, h4, h5, h6, h7, h8, h9, eo, heo, h10, h11⟩ := h
      exact ⟨h0, h1, h2, h3, h4, h5, h6, h7, h8, h9, eo, heo, h10, h11.symm⟩

theorem evalContract_none_of_no_items {pexp : ℚ → ℚ} {params : ScanParams} {d : ScanData}
    {mls : List (Int × Int)} {bb : Int → List MarketOrder}
    {pdata : List (Int × itemPriceData)} {mult : ℚ} {hd : Int} {tc f mm : ℚ}
    {c : PublicContract} (h : alookup d.contractItems c.ContractID = none) :
    evalContract pexp params d mls bb pdata mult hd tc f mm c = none := by
  simp [evalContract, h]

/-- Every returned result comes from an all-filters-passing candidate. -/
theorem mem_scanContracts {pexp : ℚ → ℚ} {params : ScanParams} {d : ScanData}
    {r : ContractResult} (hr : r ∈ ScanContracts pexp params d) :
    ∃ c, c ∈ d.allContracts ∧
      candidateOK d (marketLocationSystems d) (getContractFilters params).1 c = true ∧
      evalContract pexp params d (marketLocationSystems d) (buyBookOf params d)
        (priceDataOf params d) (contractSellValueMultiplier params) (contractHoldDays params)
        (contractTargetConfidence params) (getContractFilters params).2.2
        (getContractFilters params).2.1 c = some r := by
  simp only [ScanContracts] at hr
  split at hr
  · exact absurd hr (List.not_mem_nil r)
  · have h1 := List.take_subset _ _ hr
    have h2 := List.mem_mergeSort.mp h1
    obtain ⟨c, hc, heval⟩ := List.mem_filterMap.mp h2
    obtain ⟨hcmem, hcok⟩ := List.mem_filter.mp hc
    exact ⟨c, hcmem, hcok, heval⟩

/-- The result count: the number of passing candidates, capped. -/
theorem scanContracts_length (pexp : ℚ → ℚ) (params : ScanParams) (d : ScanData) :
    (ScanContracts pexp params d).length =
      min MaxUnlimitedResults
        ((d.allContracts.filter
            (candidateOK d (marketLocationSystems d) (getContractFilters params).1)).filterMap
          (evalContract pexp params d (marketLocationSystems d) (buyBookOf params d)
            (priceDataOf params d) (contractSellValueMultiplier params)
            (contractHoldDays params) (contractTargetConfidence params)
            (getContractFilters params).2.2 (getContractFilters params).2.1)).length := by
  simp only [ScanContracts]
  split
  · rename_i hempty
    rw [List.isEmpty_iff] at hempty
    rw [hempty]
    simp
  · rw [List.length_take, List.length_mergeSort]

/-- C2.  The contract-scan revenue multiplier: instant liquidation subtracts
only the sales tax, market-estimate mode subtracts sales tax plus broker fee;
in both modes the result is floored at 0. -/
theorem contractSellValueMultiplier_spec (params : ScanParams) :
    contractSellValueMultiplier params =
      if params.ContractInstantLiquidation then
        max 0 (1 - params.SalesTaxPercent / 100)
      else
        max 0 (1 - (params.SalesTaxPercent + params.BrokerFeePercent) / 100) := by
  unfold contractSellValueMultiplier
  split
  · rcases le_or_lt 0 (1 - params.SalesTaxPercent / 100) with h | h
    · rw [if_neg (not_lt.mpr h), max_eq_right h]
    · rw [if_pos h, max_eq_left (le_of_lt h)]
  · rcases le_or_lt 0 (1 - (params.SalesTaxPercent + params.BrokerFeePercent) / 100) with h | h
    · rw [if_neg (not_lt.mpr h), max_eq_right h]
    · rw [if_pos h, max_eq_left (le_of_lt h)]

/-- C4.  Every returned contract's realized margin (profit over contract
price, in percent) is capped by the effective `max_contract_margin_percent`:
the configured knob, or the default 100 when the knob is not positive. -/
theorem contractScan_margin_capped (pexp : ℚ → ℚ) (params : ScanParams) (d : ScanData)
    (r : ContractResult) (hr : r ∈ ScanContracts pexp params d) :
    r.MarginPercent = r.Profit / r.Price * 100 ∧
      r.MarginPercent ≤
        (if params.MaxContractMargin ≤ 0 then DefaultMaxContractMargin
         else params.MaxContractMargin) := by
  obtain ⟨c, _, _, heval⟩ := mem_scanContracts hr
  cases hitems : alookup d.contractItems c.ContractID with
  | none => rw [evalContract_none_of_no_items hitems] at heval; exact Option.noConfusion heval
  | some items =>
    obtain ⟨-, -, -, -, -, -, -, -, -, hmm, eo, -, -, hreq⟩ :=
      (evalContract_eq_some_iff hitems).mp heval
    subst hreq
    refine ⟨rfl, ?_⟩
    have : (getContractFilters params).2.1 =
        (if params.MaxContractMargin ≤ 0 then DefaultMaxContractMargin
         else params.MaxContractMargin) := rfl
    rw [← this]
    exact not_lt.mp hmm

end Engine

end EveFlipper
namespace EveFlipper
namespace Engine

/-- The per-item "was priced" predicate of the estimate-mode loop. -/
def contractItemPriced (params : ScanParams) (types : List (Int × SDEType))
    (priceData : List (Int × itemPriceData)) (item : ContractItem) : Bool :=
  item.IsIncluded && !item.IsBlueprintCopy &&
    !(match alookup types item.TypeID with
      | some t => nameHasBlueprint t.Name
      | none => false) &&
    (match alookup priceData item.TypeID with
     | none => false
     | some pd =>
       !(decide (pd.MinSellPrice = 0 ∨ pd.MinSellPrice = maxFloat64)) &&
         (estimateItemPrice params pd).isSome)

/-- The per-item "priced as bait / high deviation" predicate. -/
def contractItemHighDev (params : ScanParams) (types : List (Int × SDEType))
    (priceData : List (Int × itemPriceData)) (item : ContractItem) : Bool :=
  contractItemPriced params types priceData item &&
    (match alookup priceData item.TypeID with
     | none => false
     | some pd => ((estimateItemPrice params pd).getD (0, false)).2)

/-- The per-item fill probability factor of the estimate-mode loop. -/
def itemFillFactor (pexp : ℚ → ℚ) (priceData : List (Int × itemPriceData))
    (holdDays : Int) (item : ContractItem) : ℚ :=
  match alookup priceData item.TypeID with
  | none => 1
  | some pd =>
    fillProbabilityWithinDays pexp
      (estimateFillDays item.Quantity (effectiveDailyVolume (some pd))) (holdDays : ℚ)

set_option maxHeartbeats 1000000 in
theorem evalContractItem_estimate_step (pexp : ℚ → ℚ) (params : ScanParams)
    (types : List (Int × SDEType)) (pdata : List (Int × itemPriceData))
    (bb : Int → List MarketOrder) (hd : Int)
    (hinst : params.ContractInstantLiquidation = false) (acc : ItemAcc) (item : ContractItem) :
    (evalContractItem pexp params types pdata bb hd acc item).pricedCount =
        acc.pricedCount + (if contractItemPriced params types pdata item then 1 else 0) ∧
      (evalContractItem pexp params types pdata bb hd acc item).fullLiquidationProb =
        acc.fullLiquidationProb *
          (if contractItemPriced params types pdata item then
            itemFillFactor pexp pdata hd item else 1) ∧
      (evalContractItem pexp params types pdata bb hd acc item).highDeviationItems =
        acc.highDeviationItems +
          (if contractItemHighDev params types pdata item then 1 else 0) := by
  unfold evalContractItem contractItemHighDev contractItemPriced
  by_cases hincl : item.IsIncluded = false
  · simp [hincl]
  · have hincl2 : item.IsIncluded = true := by revert hincl; cases item.IsIncluded <;> simp
    simp only [hincl2, if_false, Bool.true_and, if_neg hincl]
    by_cases hbpc : item.IsBlueprintCopy = true
    · simp [hbpc]
    · have hbpc2 : item.IsBlueprintCopy = false := by revert hbpc; cases item.IsBlueprintCopy <;> simp
      simp only [hbpc2, Bool.not_false, Bool.true_and, if_false]
      cases htype : alookup types item.TypeID with
      | some t =>
        by_cases hbp : nameHasBlueprint t.Name = true
        · simp [htype, hbp]
        · have hbp2 : nameHasBlueprint t.Name = false := by revert hbp; cases nameHasBlueprint t.Name <;> simp
          simp only [htype, hbp2, Bool.not_false, Bool.true_and, if_false, hinst]
          cases hpd : alookup pdata item.TypeID with
          | none => simp [hpd]
          | some pd =>
            by_cases hms : pd.MinSellPrice = 0 ∨ pd.MinSellPrice = maxFloat64
            · simp [hpd, hms]
            · cases hep : estimateItemPrice params pd with
              | none => simp [hpd, hms, hep]
              | some uphd =>
                obtain ⟨up, hdev⟩ := uphd
                cases hdev <;>
                  by_cases hlv : pd.DailyVolume < MinDailyVolumeForContract <;>
                    simp [hpd, hms, hep, hlv, itemFillFactor]
      | none =>
        simp only [htype, Bool.not_false, Bool.true_and, if_false, hinst]
        cases hpd : alookup pdata item.TypeID with
        | none => simp [hpd]
        | some pd =>
          by_cases hms : pd.MinSellPrice = 0 ∨ pd.MinSellPrice = maxFloat64
          · simp [hpd, hms]
          · cases hep : estimateItemPrice params pd with
            | none => simp [hpd, hms, hep]
            | some uphd =>
              obtain ⟨up, hdev⟩ := uphd
              cases hdev <;>
                by_cases hlv : pd.DailyVolume < MinDailyVolumeForContract <;>
                  simp [hpd, hms, hep, hlv, itemFillFactor]

end Engine
end EveFlipper

namespace EveFlipper
namespace Engine

theorem foldl_evalContractItem_estimate (pexp : ℚ → ℚ) (params : ScanParams)
    (types : List (Int × SDEType)) (pdata : List (Int × itemPriceData))
    (bb : Int → List MarketOrder) (hd : Int)
    (hinst : params.ContractInstantLiquidation = false) :
    ∀ (items : List ContractItem) (acc : ItemAcc),
      (items.foldl (evalContractItem pexp params types pdata bb hd) acc).pricedCount =
          acc.pricedCount + (items.filter (contractItemPriced params types pdata)).length ∧
        (items.foldl (evalContractItem pexp params types pdata bb hd) acc).fullLiquidationProb =
          acc.fullLiquidationProb *
            ((items.filter (contractItemPriced params types pdata)).map
              (itemFillFactor pexp pdata hd)).prod ∧
        (items.foldl (evalContractItem pexp params types pdata bb hd) acc).highDeviationItems =
          acc.highDeviationItems +
            (items.filter (contractItemHighDev params types pdata)).length := by
  intro items
  induction items with
  | nil => intro acc; simp
  | cons item rest ih =>
    intro acc
    obtain ⟨s1, s2, s3⟩ :=
      evalContractItem_estimate_step pexp params types pdata bb hd hinst acc item
    obtain ⟨i1, i2, i3⟩ := ih (evalContractItem pexp params types pdata bb hd acc item)
    rw [List.foldl_cons]
    refine ⟨?_, ?_, ?_⟩
    · rw [i1, s1]
      by_cases hp : contractItemPriced params types pdata item = true
      · simp [List.filter_cons, hp]
        omega
      · have hp2 : contractItemPriced params types pdata item = false := by
          revert hp; cases contractItemPriced params types pdata item <;> simp
        simp [List.filter_cons, hp2] <;> omega
    · rw [i2, s2]
      by_cases hp : contractItemPriced params types pdata item = true
      · simp only [List.filter_cons, hp, if_true, List.map_cons, List.prod_cons]
        ring
      · have hp2 : contractItemPriced params types pdata item = false := by
          revert hp; cases contractItemPriced params types pdata item <;> simp
        simp only [List.filter_cons, hp2, if_true, Bool.false_eq_true, if_false, hp]
        ring
    · rw [i3, s3]
      by_cases hp : contractItemHighDev params types pdata item = true
      · simp [List.filter_cons, hp]
        omega
      · have hp2 : contractItemHighDev params types pdata item = false := by
          revert hp; cases contractItemHighDev params types pdata item <;> simp
        simp [List.filter_cons, hp2] <;> omega

end Engine
end EveFlipper

namespace EveFlipper
namespace Engine

/-- τ_i of the specification: quantity over executable daily throughput. -/
def itemTau (pd : itemPriceData) (item : ContractItem) : ℚ :=
  (item.Quantity : ℚ) / (effectiveDailyVolume (some pd) * ContractFillParticipation)

theorem contractTargetConfidence_pos (params : ScanParams) :
    0 < contractTargetConfidence params := by
  unfold contractTargetConfidence DefaultContractTargetConfidence
  split
  · norm_num
  · split
    · norm_num
    · rename_i h _
      exact lt_of_not_le h

theorem contractHoldDays_pos (params : ScanParams) : 0 < contractHoldDays params := by
  unfold contractHoldDays DefaultContractHoldDays
  split
  · norm_num
  · split
    · norm_num
    · rename_i h _
      omega

theorem clamp01_mem (q : ℚ) :
    0 ≤ (if q < 0 then (0 : ℚ) else if q > 1 then 1 else q) ∧
      (if q < 0 then (0 : ℚ) else if q > 1 then 1 else q) ≤ 1 := by
  by_cases h1 : q < 0
  · rw [if_pos h1]; norm_num
  · rw [if_neg h1]
    by_cases h2 : q > 1
    · rw [if_pos h2]; norm_num
    · rw [if_neg h2]; exact ⟨not_lt.mp h1, not_lt.mp h2⟩

theorem fillProbabilityWithinDays_mem01 (pexp : ℚ → ℚ) (fd : Option ℚ) (h : ℚ) :
    0 ≤ fillProbabilityWithinDays pexp fd h ∧ fillProbabilityWithinDays pexp fd h ≤ 1 := by
  unfold fillProbabilityWithinDays
  by_cases hh : h ≤ 0
  · rw [if_pos hh]; norm_num
  · rw [if_neg hh]
    cases fd with
    | none => norm_num
    | some x =>
      dsimp only
      by_cases hx : x ≤ 0
      · rw [if_pos hx]; norm_num
      · rw [if_neg hx]
        exact clamp01_mem (1 - pexp (-(h / x)))

theorem itemFillFactor_mem01 (pexp : ℚ → ℚ) (pdata : List (Int × itemPriceData))
    (hd : Int) (item : ContractItem) :
    0 ≤ itemFillFactor pexp pdata hd item ∧ itemFillFactor pexp pdata hd item ≤ 1 := by
  unfold itemFillFactor
  match alookup pdata item.TypeID with
  | none => norm_num
  | some pd => exact fillProbabilityWithinDays_mem01 pexp _ _

theorem list_prod_pos_each : ∀ (l : List ℚ), (∀ x ∈ l, 0 ≤ x) → 0 < l.prod →
    ∀ x ∈ l, 0 < x := by
  intro l
  induction l with
  | nil => intro _ _ x hx; exact absurd hx (List.not_mem_nil x)
  | cons a t ih =>
    intro hmem hp x hx
    rw [List.prod_cons] at hp
    have ha : 0 ≤ a := hmem a (List.mem_cons_self a t)
    have ht : 0 ≤ t.prod := List.prod_nonneg (fun y hy => hmem y (List.mem_cons_of_mem a hy))
    have ha2 : 0 < a := by
      rcases lt_or_eq_of_le ha with h2 | h2
      · exact h2
      · rw [← h2, zero_mul] at hp
        exact absurd hp (lt_irrefl 0)
    have htp : 0 < t.prod := by nlinarith
    rcases List.mem_cons.mp hx with hxa | hxt
    · rw [hxa]; exact ha2
    · exact ih (fun y hy => hmem y (List.mem_cons_of_mem a hy)) htp x hxt

theorem contractExpected_estimate_inv {params : ScanParams} {acc : ItemAcc}
    {c : PublicContract} {profit margin ev mult : ℚ} {hd : Int} {tc : ℚ}
    {eo : ExpectedOutcome} (hinst : params.ContractInstantLiquidation = false)
    (h : contractExpected params acc c profit margin ev mult hd tc = some eo) :
    eo.sellConfidencePct = acc.fullLiquidationProb * 100 ∧
      tc ≤ acc.fullLiquidationProb * 100 := by
  unfold contractExpected at h
  rw [hinst] at h
  simp only [Bool.false_eq_true, if_false] at h
  split at h
  · exact absurd h (by simp)
  · rename_i hconf
    split at h
    · exact absurd h (by simp)
    · rw [Option.some.injEq] at h
      subst h
      exact ⟨rfl, not_lt.mp hconf⟩

theorem contractItemPriced_lookup {params : ScanParams} {types : List (Int × SDEType)}
    {pdata : List (Int × itemPriceData)} {item : ContractItem}
    (h : contractItemPriced params types pdata item = true) :
    ∃ pd, alookup pdata item.TypeID = some pd := by
  unfold contractItemPriced at h
  cases hpd : alookup pdata item.TypeID with
  | none => rw [hpd] at h; simp at h
  | some pd => exact ⟨pd, rfl⟩

theorem itemFillFactor_eq_of_pos {pexp : ℚ → ℚ} (hpexp : ExpLike pexp)
    {pdata : List (Int × itemPriceData)} {hd : Int} (hhd : 0 < hd)
    {item : ContractItem} (hq : 1 ≤ item.Quantity) {pd : itemPriceData}
    (hpd : alookup pdata item.TypeID = some pd)
    (hpos : 0 < itemFillFactor pexp pdata hd item) :
    itemFillFactor pexp pdata hd item = 1 - pexp (-((hd : ℚ) / itemTau pd item)) := by
  unfold itemFillFactor at hpos ⊢
  rw [hpd] at hpos ⊢
  dsimp only at hpos ⊢
  have hhq : (0 : ℚ) < (hd : ℚ) := by exact_mod_cast hhd
  unfold fillProbabilityWithinDays at hpos ⊢
  rw [if_neg (not_le.mpr hhq)] at hpos ⊢
  unfold estimateFillDays at hpos ⊢
  rw [if_neg (by omega : ¬ item.Quantity ≤ 0)] at hpos ⊢
  by_cases hdv : effectiveDailyVolume (some pd) ≤ 0
  · rw [if_pos hdv] at hpos
    exact absurd hpos (lt_irrefl 0)
  · rw [if_neg hdv] at hpos ⊢
    have hdvpos : 0 < effectiveDailyVolume (some pd) := lt_of_not_le hdv
    have hepd : 0 < effectiveDailyVolume (some pd) * ContractFillParticipation := by
      unfold ContractFillParticipation
      positivity
    rw [if_neg (not_le.mpr hepd)] at hpos ⊢
    dsimp only at hpos ⊢
    have hfd : 0 < (item.Quantity : ℚ) / (effectiveDailyVolume (some pd) * ContractFillParticipation) := by
      apply div_pos _ hepd
      exact_mod_cast (by omega : (0 : Int) < item.Quantity)
    rw [if_neg (not_le.mpr hfd)] at hpos ⊢
    have harg : -((hd : ℚ) / ((item.Quantity : ℚ) /
        (effectiveDailyVolume (some pd) * ContractFillParticipation))) < 0 :=
      neg_neg_of_pos (div_pos hhq hfd)
    have hpe := hpexp _ harg
    unfold itemTau
    rw [if_neg (by linarith : ¬ 1 - pexp (-((hd : ℚ) / ((item.Quantity : ℚ) /
        (effectiveDailyVolume (some pd) * ContractFillParticipation)))) < 0)]
    rw [if_neg (by linarith : ¬ 1 - pexp (-((hd : ℚ) / ((item.Quantity : ℚ) /
        (effectiveDailyVolume (some pd) * ContractFillParticipation)))) > 1)]

end Engine
end EveFlipper

namespace EveFlipper
namespace Engine

/-- C1.  In estimate (non-instant) mode, every contract returned by
`ScanContracts` carries a sell confidence equal (as a percentage) to the
product over its priced items of the per-item fill factors, each of which is
`1 − exp(−T/τ_i)` with `T` the effective hold days and `τ_i` the quantity over
the item's executable daily throughput (`0.35` of its effective daily volume);
and the confidence meets the effective target confidence percentage. -/
theorem contractScan_estimate_confidence
    {pexp : ℚ → ℚ} (hpexp : ExpLike pexp) {params : ScanParams} {d : ScanData}
    (hinst : params.ContractInstantLiquidation = false)
    (hqty : ∀ p ∈ d.contractItems, ∀ it ∈ p.2, 1 ≤ it.Quantity)
    {r : ContractResult} (hr : r ∈ ScanContracts pexp params d) :
    ∃ items, alookup d.contractItems r.ContractID = some items ∧
      r.SellConfidence =
        ((items.filter (contractItemPriced params d.Types (priceDataOf params d))).map
          (itemFillFactor pexp (priceDataOf params d) (contractHoldDays params))).prod * 100 ∧
      (∀ it ∈ items.filter (contractItemPriced params d.Types (priceDataOf params d)),
        ∃ pd, alookup (priceDataOf params d) it.TypeID = some pd ∧
          itemFillFactor pexp (priceDataOf params d) (contractHoldDays params) it =
            1 - pexp (-((contractHoldDays params : ℚ) / itemTau pd it))) ∧
      contractTargetConfidence params ≤ r.SellConfidence := by
  obtain ⟨c, hcmem, hcok, heval⟩ := mem_scanContracts hr
  cases hlk : alookup d.contractItems c.ContractID with
  | none =>
    rw [evalContract_none_of_no_items hlk] at heval
    exact absurd heval (by simp)
  | some items =>
    rw [evalContract_eq_some_iff hlk] at heval
    obtain ⟨hemp, h1, h2, h3, h4, h5, h6, h7, h8, h9, eo, heo, h10, h11⟩ := heval
    obtain ⟨hpc, hflp, hhdev⟩ := foldl_evalContractItem_estimate pexp params d.Types
      (priceDataOf params d) (buyBookOf params d) (contractHoldDays params) hinst items {}
    have hflp1 : (items.foldl (evalContractItem pexp params d.Types (priceDataOf params d)
        (buyBookOf params d) (contractHoldDays params)) {}).fullLiquidationProb =
        ((items.filter (contractItemPriced params d.Types (priceDataOf params d))).map
          (itemFillFactor pexp (priceDataOf params d) (contractHoldDays params))).prod := by
      rw [hflp]; exact one_mul _
    obtain ⟨hsc, htcle⟩ := contractExpected_estimate_inv hinst heo
    subst h11
    have hscEq : (mkContractResultFrom params d (marketLocationSystems d) c
        (items.foldl (evalContractItem pexp params d.Types (priceDataOf params d)
          (buyBookOf params d) (contractHoldDays params)) {}) eo
        ((items.foldl (evalContractItem pexp params d.Types (priceDataOf params d)
            (buyBookOf params d) (contractHoldDays params)) {}).marketValue *
            contractSellValueMultiplier params - c.Price)
        (((items.foldl (evalContractItem pexp params d.Types (priceDataOf params d)
            (buyBookOf params d) (contractHoldDays params)) {}).marketValue *
            contractSellValueMultiplier params - c.Price) / c.Price * 100)).SellConfidence =
        eo.sellConfidencePct := rfl
    have hprod100 : 0 <
        ((items.filter (contractItemPriced params d.Types (priceDataOf params d))).map
          (itemFillFactor pexp (priceDataOf params d) (contractHoldDays params))).prod * 100 := by
      have h0 := lt_of_lt_of_le (contractTargetConfidence_pos params) htcle
      rw [hflp1] at h0
      exact h0
    have hprodpos : 0 <
        ((items.filter (contractItemPriced params d.Types (priceDataOf params d))).map
          (itemFillFactor pexp (priceDataOf params d) (contractHoldDays params))).prod := by
      nlinarith
    refine ⟨items, hlk, ?_, ?_, ?_⟩
    · rw [hscEq, hsc, hflp1]
    · intro it hit
      have hit1 : it ∈ items := (List.mem_filter.mp hit).1
      have hp : contractItemPriced params d.Types (priceDataOf params d) it = true :=
        (List.mem_filter.mp hit).2
      obtain ⟨pd, hpd⟩ := contractItemPriced_lookup hp
      refine ⟨pd, hpd, ?_⟩
      have hsnd := alookup_mem_snd _ _ _ hlk
      obtain ⟨p, hpmem, hpsnd⟩ := List.mem_map.mp hsnd
      have hq : 1 ≤ it.Quantity := hqty p hpmem it (by rw [hpsnd]; exact hit1)
      have hpos : 0 < itemFillFactor pexp (priceDataOf params d) (contractHoldDays params) it := by
        refine list_prod_pos_each _ ?_ hprodpos _ (List.mem_map_of_mem _ hit)
        intro x hx
        obtain ⟨y, _, hy⟩ := List.mem_map.mp hx
        rw [← hy]
        exact (itemFillFactor_mem01 pexp (priceDataOf params d) (contractHoldDays params) y).1
      exact itemFillFactor_eq_of_pos hpexp (contractHoldDays_pos params) hq hpd hpos
    · rw [hscEq, hsc, hflp1]
      rw [hflp1] at htcle
      exact htcle

end Engine
end EveFlipper

namespace EveFlipper
namespace Engine

/-- A concrete exp-like stand-in for `math.Exp` on the witness data. -/
def e0 : ℚ → ℚ := fun _ => 1/1000

/-- Default scan parameters for the witness data. -/
def p0 : ScanParams := {}

/-- A one-contract scan data set: one sell order, one item-exchange contract
holding 150 tritanium priced 10M against a 15M market value. -/
def d0 : ScanData :=
  { sellOrders := [{ TypeID := 34, LocationID := 60000001, SystemID := 30000001, Price := 100000, VolumeRemain := 10 }],
    allContracts := [{ ContractID := 1, ctype := "item_exchange", Price := 10000000, StartLocationID := 60000001, Title := "x", Volume := 5, Expired := false }],
    contractItems := [(1, [{ TypeID := 34, Quantity := 150 }])],
    history := [(34, { VWAP := 110000, DailyVolume := 10000 })],
    Stations := [(60000001, 30000001)],
    buySystems := [(30000001, 0)] }

/-- The single result the scan returns on `d0`. -/
def r0 : ContractResult :=
  { ContractID := 1, Title := "x", Price := 10000000, MarketValue := 15000000,
    Profit := 5000000, MarginPercent := 50, ExpectedProfit := 4465450,
    ExpectedMarginPercent := 89309/2000, SellConfidence := 999/10,
    EstLiquidationDays := 3/70, ConservativeValue := 14535450, CarryCost := 70000,
    Volume := 5, StationName := "", SystemName := "", RegionName := "",
    ItemCount := 150, Jumps := 0, ProfitPerJump := 0 }

theorem scan_d0 : ScanContracts e0 p0 d0 = [r0] := by with_unfolding_all rfl

theorem contractScan_estimate_confidence_witness :
    ∃ items, alookup d0.contractItems r0.ContractID = some items ∧
      r0.SellConfidence =
        ((items.filter (contractItemPriced p0 d0.Types (priceDataOf p0 d0))).map
          (itemFillFactor e0 (priceDataOf p0 d0) (contractHoldDays p0))).prod * 100 ∧
      (∀ it ∈ items.filter (contractItemPriced p0 d0.Types (priceDataOf p0 d0)),
        ∃ pd, alookup (priceDataOf p0 d0) it.TypeID = some pd ∧
          itemFillFactor e0 (priceDataOf p0 d0) (contractHoldDays p0) it =
            1 - e0 (-((contractHoldDays p0 : ℚ) / itemTau pd it))) ∧
      contractTargetConfidence p0 ≤ r0.SellConfidence := by
  have hr : r0 ∈ ScanContracts e0 p0 d0 := by
    rw [scan_d0]; exact List.mem_singleton_self r0
  refine contractScan_estimate_confidence ?_ ?_ ?_ hr
  · intro x _; constructor <;> norm_num [e0]
  · rfl
  · intro p hp it hit
    simp only [d0, List.mem_singleton] at hp
    subst hp
    simp only [List.mem_singleton] at hit
    subst hit
    norm_num

end Engine
end EveFlipper

namespace EveFlipper
namespace Engine

def items5 : List ContractItem :=
  [{ TypeID := 34, Quantity := 20 }, { TypeID := 35, Quantity := 20 },
   { TypeID := 36, Quantity := 20 }, { TypeID := 37, Quantity := 20 },
   { TypeID := 38, Quantity := 20 }, { TypeID := 39, Quantity := 20 },
   { TypeID := 40, Quantity := 20 },
   { TypeID := 41, Quantity := 10 }, { TypeID := 42, Quantity := 10 },
   { TypeID := 43, Quantity := 10 }]

/-- A scan data set with one contract of ten priced item types, of which the
three types 41–43 are bait-priced (ask 40000 under half the 100000 VWAP):
exactly 30% of the priced items are high-deviation. -/
def d5 : ScanData :=
  { sellOrders :=
      [{ TypeID := 34, LocationID := 60000001, SystemID := 30000001, Price := 100000, VolumeRemain := 10 },
       { TypeID := 35, LocationID := 60000001, SystemID := 30000001, Price := 100000, VolumeRemain := 10 },
       { TypeID := 36, LocationID := 60000001, SystemID := 30000001, Price := 100000, VolumeRemain := 10 },
       { TypeID := 37, LocationID := 60000001, SystemID := 30000001, Price := 100000, VolumeRemain := 10 },
       { TypeID := 38, LocationID := 60000001, SystemID := 30000001, Price := 100000, VolumeRemain := 10 },
       { TypeID := 39, LocationID := 60000001, SystemID := 30000001, Price := 100000, VolumeRemain := 10 },
       { TypeID := 40, LocationID := 60000001, SystemID := 30000001, Price := 100000, VolumeRemain := 10 },
       { TypeID := 41, LocationID := 60000001, SystemID := 30000001, Price := 40000, VolumeRemain := 10 },
       { TypeID := 42, LocationID := 60000001, SystemID := 30000001, Price := 40000, VolumeRemain := 10 },
       { TypeID := 43, LocationID := 60000001, SystemID := 30000001, Price := 40000, VolumeRemain := 10 }],
    allContracts := [{ ContractID := 1, ctype := "item_exchange", Price := 10000000, StartLocationID := 60000001, Title := "x", Volume := 5, Expired := false }],
    contractItems := [(1, items5)],
    history :=
      [(34, { VWAP := 100000, DailyVolume := 10000 }), (35, { VWAP := 100000, DailyVolume := 10000 }),
       (36, { VWAP := 100000, DailyVolume := 10000 }), (37, { VWAP := 100000, DailyVolume := 10000 }),
       (38, { VWAP := 100000, DailyVolume := 10000 }), (39, { VWAP := 100000, DailyVolume := 10000 }),
       (40, { VWAP := 100000, DailyVolume := 10000 }), (41, { VWAP := 100000, DailyVolume := 10000 }),
       (42, { VWAP := 100000, DailyVolume := 10000 }), (43, { VWAP := 100000, DailyVolume := 10000 })],
    Stations := [(60000001, 30000001)],
    buySystems := [(30000001, 0)] }

/-- The single result the scan returns on `d5` — the 30%-high-deviation
contract is accepted. -/
def r5 : ContractResult :=
  { ContractID := 1, Title := "x", Price := 10000000, MarketValue := 16100000,
    Profit := 6100000, MarginPercent := 61, ExpectedProfit := 5531383,
    ExpectedMarginPercent := 5531383/100000,
    SellConfidence := 990044880209748209880044990001/10000000000000000000000000000,
    EstLiquidationDays := 1/175, ConservativeValue := 15601383, CarryCost := 70000,
    Volume := 5, StationName := "", SystemName := "", RegionName := "",
    ItemCount := 170, Jumps := 0, ProfitPerJump := 0 }

theorem scan_d5 : ScanContracts e0 p0 d5 = [r5] := by with_unfolding_all rfl

theorem estimateItemPrice_bait (params : ScanParams) (pd : itemPriceData)
    (hh : pd.HasHistory = true) (hv : 0 < pd.VWAP)
    (hbait : pd.MinSellPrice < pd.VWAP * (1/2)) :
    estimateItemPrice params pd =
      some (min (pd.VWAP * (7/10)) (pd.MinSellPrice * 2), true) := by
  unfold estimateItemPrice
  rw [if_pos ⟨hh, hv⟩, if_pos hbait]

theorem evalContractItem_bait (pexp : ℚ → ℚ) (params : ScanParams)
    (types : List (Int × SDEType)) (pdata : List (Int × itemPriceData))
    (bb : Int → List MarketOrder) (hd : Int) (acc : ItemAcc) (item : ContractItem)
    (pd : itemPriceData)
    (hinstL : params.ContractInstantLiquidation = false)
    (hinc : item.IsIncluded = true) (hbpc : item.IsBlueprintCopy = false)
    (hbpn : (match alookup types item.TypeID with
             | some t => nameHasBlueprint t.Name
             | none => false) = false)
    (hpd : alookup pdata item.TypeID = some pd)
    (hms : ¬(pd.MinSellPrice = 0 ∨ pd.MinSellPrice = maxFloat64))
    (hh : pd.HasHistory = true) (hv : 0 < pd.VWAP)
    (hbait : pd.MinSellPrice < pd.VWAP * (1/2)) :
    (evalContractItem pexp params types pdata bb hd acc item).marketValue =
        acc.marketValue + min (pd.VWAP * (7/10)) (pd.MinSellPrice * 2) * (item.Quantity : ℚ) ∧
      (evalContractItem pexp params types pdata bb hd acc item).highDeviationItems =
        acc.highDeviationItems + 1 := by
  have hest := estimateItemPrice_bait params pd hh hv hbait
  by_cases hlv : pd.DailyVolume < MinDailyVolumeForContract <;>
    simp [evalContractItem, hinstL, hinc, hbpc, hbpn, hpd, hms, hest, hlv]

end Engine
end EveFlipper

namespace EveFlipper
namespace Engine

theorem scanContracts_highDev_le {pexp : ℚ → ℚ} {params : ScanParams} {d : ScanData}
    {r : ContractResult} {items : List ContractItem}
    (hr : r ∈ ScanContracts pexp params d)
    (hlk : alookup d.contractItems r.ContractID = some items) :
    (((items.foldl (evalContractItem pexp params d.Types (priceDataOf params d)
          (buyBookOf params d) (contractHoldDays params)) {}).highDeviationItems : ℚ) ≤
      3/10 *
        ((items.foldl (evalContractItem pexp params d.Types (priceDataOf params d)
            (buyBookOf params d) (contractHoldDays params)) {}).pricedCount : ℚ)) := by
  obtain ⟨c, hcmem, hcok, heval⟩ := mem_scanContracts hr
  cases hlk2 : alookup d.contractItems c.ContractID with
  | none =>
    rw [evalContract_none_of_no_items hlk2] at heval
    exact absurd heval (by simp)
  | some items2 =>
    rw [evalContract_eq_some_iff hlk2] at heval
    obtain ⟨hemp, h1, h2, h3, h4, h5, h6, h7, h8, h9, eo, heo, h10, h11⟩ := heval
    subst h11
    have hcid : (mkContractResultFrom params d (marketLocationSystems d) c
        (items2.foldl (evalContractItem pexp params d.Types (priceDataOf params d)
          (buyBookOf params d) (contractHoldDays params)) {}) eo
        ((items2.foldl (evalContractItem pexp params d.Types (priceDataOf params d)
            (buyBookOf params d) (contractHoldDays params)) {}).marketValue *
            contractSellValueMultiplier params - c.Price)
        (((items2.foldl (evalContractItem pexp params d.Types (priceDataOf params d)
            (buyBookOf params d) (contractHoldDays params)) {}).marketValue *
            contractSellValueMultiplier params - c.Price) / c.Price * 100)).ContractID =
        c.ContractID := rfl
    rw [hcid, hlk2, Option.some.injEq] at hlk
    subst hlk
    have hpc : (items2.foldl (evalContractItem pexp params d.Types (priceDataOf params d)
        (buyBookOf params d) (contractHoldDays params)) {}).pricedCount ≠ 0 := by
      intro h0
      exact h2 (Or.inr h0)
    have hpcq : (0 : ℚ) <
        ((items2.foldl (evalContractItem pexp params d.Types (priceDataOf params d)
          (buyBookOf params d) (contractHoldDays params)) {}).pricedCount : ℚ) := by
      exact_mod_cast Nat.pos_of_ne_zero hpc
    have hnot : ¬(((items2.foldl (evalContractItem pexp params d.Types (priceDataOf params d)
        (buyBookOf params d) (contractHoldDays params)) {}).highDeviationItems : ℚ) /
        ((items2.foldl (evalContractItem pexp params d.Types (priceDataOf params d)
          (buyBookOf params d) (contractHoldDays params)) {}).pricedCount : ℚ) > 3/10) :=
      fun hgt => h6 ⟨Nat.pos_of_ne_zero hpc, hgt⟩
    exact (div_le_iff hpcq).mp (not_lt.mp hnot)

end Engine
end EveFlipper

namespace EveFlipper
namespace Engine

/-- A bait-priced item type: ask 40000 under half the 100000 VWAP. -/
def pdBait : itemPriceData :=
  { MinSellPrice := 40000, VWAP := 100000, DailyVolume := 10000, HasHistory := true }

def itBait : ContractItem := { TypeID := 41, Quantity := 10 }

/-- C5 (amended).  In estimate mode, an item whose cheapest ask lies below
half its VWAP is valued at `min(0.7·VWAP, 2·ask)` per unit — for VWAP 50 and
lone ask 10 that is `min(35, 20) = 20`, not 14 — and is counted as
high-deviation: its per-unit value times quantity enters the market value and
the high-deviation counter steps by one.  A contract is rejected only when
*strictly more* than 30% of its priced items are high-deviation: every
returned contract has at most `0.3 · pricedCount` high-deviation items, and a
contract with exactly 30% is accepted. -/
theorem contractScan_bait_pricing (params : ScanParams) :
    (∀ pd : itemPriceData, pd.HasHistory = true → 0 < pd.VWAP →
        pd.MinSellPrice < pd.VWAP * (1/2) →
        estimateItemPrice params pd =
          some (min (pd.VWAP * (7/10)) (pd.MinSellPrice * 2), true)) ∧
    estimateItemPrice params { MinSellPrice := 10, VWAP := 50, HasHistory := true } =
      some (20, true) ∧
    (∀ (pexp : ℚ → ℚ) (types : List (Int × SDEType)) (pdata : List (Int × itemPriceData))
        (bb : Int → List MarketOrder) (hd : Int) (acc : ItemAcc) (item : ContractItem)
        (pd : itemPriceData),
      params.ContractInstantLiquidation = false →
      item.IsIncluded = true → item.IsBlueprintCopy = false →
      (match alookup types item.TypeID with
       | some t => nameHasBlueprint t.Name
       | none => false) = false →
      alookup pdata item.TypeID = some pd →
      ¬(pd.MinSellPrice = 0 ∨ pd.MinSellPrice = maxFloat64) →
      pd.HasHistory = true → 0 < pd.VWAP → pd.MinSellPrice < pd.VWAP * (1/2) →
      (evalContractItem pexp params types pdata bb hd acc item).marketValue =
          acc.marketValue +
            min (pd.VWAP * (7/10)) (pd.MinSellPrice * 2) * (item.Quantity : ℚ) ∧
        (evalContractItem pexp params types pdata bb hd acc item).highDeviationItems =
          acc.highDeviationItems + 1) ∧
    (∀ (pexp : ℚ → ℚ) (d : ScanData) (r : ContractResult) (items : List ContractItem),
      r ∈ ScanContracts pexp params d →
      alookup d.contractItems r.ContractID = some items →
      (((items.foldl (evalContractItem pexp params d.Types (priceDataOf params d)
            (buyBookOf params d) (contractHoldDays params)) {}).highDeviationItems : ℚ) ≤
        3/10 *
          ((items.foldl (evalContractItem pexp params d.Types (priceDataOf params d)
              (buyBookOf params d) (contractHoldDays params)) {}).pricedCount : ℚ))) := by
  refine ⟨fun pd hh hv hb => estimateItemPrice_bait params pd hh hv hb, ?_,
    fun pexp types pdata bb hd acc item pd h1 h2 h3 h4 h5 h6 h7 h8 h9 =>
      evalContractItem_bait pexp params types pdata bb hd acc item pd h1 h2 h3 h4 h5 h6 h7 h8 h9,
    fun pexp d r items hr hlk => scanContracts_highDev_le hr hlk⟩
  rw [estimateItemPrice_bait params _ rfl (by norm_num) (by norm_num)]
  norm_num

theorem contractScan_bait_pricing_witness :
    estimateItemPrice p0 pdBait =
        some (min ((100000 : ℚ) * (7/10)) ((40000 : ℚ) * 2), true) ∧
      estimateItemPrice p0 { MinSellPrice := 10, VWAP := 50, HasHistory := true } =
        some (20, true) ∧
      ((evalContractItem e0 p0 [] [(41, pdBait)] (fun _ => []) 7 {} itBait).marketValue =
          ({} : ItemAcc).marketValue +
            min (pdBait.VWAP * (7/10)) (pdBait.MinSellPrice * 2) * (itBait.Quantity : ℚ) ∧
        (evalContractItem e0 p0 [] [(41, pdBait)] (fun _ => []) 7 {} itBait).highDeviationItems =
          ({} : ItemAcc).highDeviationItems + 1) ∧
      (((items5.foldl (evalContractItem e0 p0 d5.Types (priceDataOf p0 d5)
            (buyBookOf p0 d5) (contractHoldDays p0)) {}).highDeviationItems : ℚ) ≤
        3/10 *
          ((items5.foldl (evalContractItem e0 p0 d5.Types (priceDataOf p0 d5)
              (buyBookOf p0 d5) (contractHoldDays p0)) {}).pricedCount : ℚ)) := by
  obtain ⟨w1, w2, w3, w4⟩ := contractScan_bait_pricing p0
  refine ⟨?_, w2, ?_, ?_⟩
  · have h := w1 pdBait rfl (by norm_num [pdBait]) (by norm_num [pdBait])
    rw [h]; rfl
  · exact w3 e0 [] [(41, pdBait)] (fun _ => []) 7 {} itBait pdBait rfl rfl rfl rfl
      (by with_unfolding_all rfl) (by with_unfolding_all decide) rfl
      (by norm_num [pdBait]) (by norm_num [pdBait])
  · exact w4 e0 d5 r5 items5 (by rw [scan_d5]; exact List.mem_singleton_self r5)
      (by with_unfolding_all rfl)

theorem contractScan_bait_counterexample :
    estimateItemPrice p0 { MinSellPrice := 10, VWAP := 50, HasHistory := true } =
        some (20, true) ∧
      (20 : ℚ) ≠ 14 ∧
      (items5.foldl (evalContractItem e0 p0 d5.Types (priceDataOf p0 d5)
          (buyBookOf p0 d5) (contractHoldDays p0)) {}).pricedCount = 10 ∧
      (items5.foldl (evalContractItem e0 p0 d5.Types (priceDataOf p0 d5)
          (buyBookOf p0 d5) (contractHoldDays p0)) {}).highDeviationItems = 3 ∧
      ScanContracts e0 p0 d5 = [r5] := by
  refine ⟨by with_unfolding_all rfl, by norm_num, by with_unfolding_all rfl,
    by with_unfolding_all rfl, scan_d5⟩

end Engine
end EveFlipper

namespace EveFlipper
namespace Engine

theorem length_filterMap_mono {α β : Type} (l : List α) (f g : α → Option β)
    (h : ∀ a, (f a).isSome → (g a).isSome) :
    (l.filterMap f).length ≤ (l.filterMap g).length := by
  induction l with
  | nil => simp
  | cons a t ih =>
    rw [List.filterMap_cons, List.filterMap_cons]
    cases hf : f a with
    | none =>
      cases hg : g a with
      | none => exact ih
      | some b => simp only [List.length_cons]; omega
    | some b =>
      have hgs := h a (by rw [hf]; rfl)
      cases hg : g a with
      | none => rw [hg] at hgs; simp at hgs
      | some b2 => simp only [List.length_cons]; omega

theorem getContractFilters_pricedFrac (p : ScanParams) (v : ℚ) (hv : 0 < v) :
    (getContractFilters { p with MinPricedFrac := v }).2.2 = v := by
  unfold getContractFilters
  dsimp only
  rw [if_neg (not_le.mpr hv)]

theorem evalContract_isSome_anti_f {pexp : ℚ → ℚ} {params : ScanParams} {d : ScanData}
    {mls : List (Int × Int)} {bb : Int → List MarketOrder}
    {pdata : List (Int × itemPriceData)} {mult : ℚ} {hd : Int} {tc mm : ℚ}
    {f1 f2 : ℚ} (hf : f1 ≤ f2) (c : PublicContract)
    (hs : (evalContract pexp params d mls bb pdata mult hd tc f2 mm c).isSome) :
    (evalContract pexp params d mls bb pdata mult hd tc f1 mm c).isSome := by
  cases hlk : alookup d.contractItems c.ContractID with
  | none => rw [evalContract_none_of_no_items hlk] at hs; simp at hs
  | some items =>
    rw [Option.isSome_iff_exists] at hs
    obtain ⟨r, hr⟩ := hs
    rw [evalContract_eq_some_iff hlk] at hr
    obtain ⟨h0, h1, h2, h3, h4, h5, h6, h7, h8, h9, eo, heo, h10, h11⟩ := hr
    rw [Option.isSome_iff_exists]
    refine ⟨r, (evalContract_eq_some_iff hlk).mpr
      ⟨h0, h1, h2, fun hlt => h3 (lt_of_lt_of_le hlt hf), h4, h5, h6, h7, h8, h9,
        eo, heo, h10, h11⟩⟩

theorem evalContract_isSome_anti_minMargin {pexp : ℚ → ℚ} {p : ScanParams} {d : ScanData}
    {mls : List (Int × Int)} {bb : Int → List MarketOrder}
    {pdata : List (Int × itemPriceData)} {mult : ℚ} {hd : Int} {tc f mm : ℚ}
    {x y : ℚ} (hxy : x ≤ y) (c : PublicContract)
    (hs : (evalContract pexp { p with MinMargin := y } d mls bb pdata mult hd tc f mm c).isSome) :
    (evalContract pexp { p with MinMargin := x } d mls bb pdata mult hd tc f mm c).isSome := by
  cases hlk : alookup d.contractItems c.ContractID with
  | none => rw [evalContract_none_of_no_items hlk] at hs; simp at hs
  | some items =>
    rw [Option.isSome_iff_exists] at hs
    obtain ⟨r, hr⟩ := hs
    rw [evalContract_eq_some_iff hlk] at hr
    have hA : evalContractItem pexp { p with MinMargin := y } d.Types pdata bb hd =
        evalContractItem pexp { p with MinMargin := x } d.Types pdata bb hd := rfl
    have hB : ({ p with MinMargin := y } : ScanParams).ContractInstantLiquidation =
        ({ p with MinMargin := x } : ScanParams).ContractInstantLiquidation := rfl
    have hC : contractExpected { p with MinMargin := y } =
        contractExpected { p with MinMargin := x } := rfl
    have hD : mkContractResultFrom { p with MinMargin := y } =
        mkContractResultFrom { p with MinMargin := x } := rfl
    rw [hA, hB, hC, hD] at hr
    obtain ⟨h0, h1, h2, h3, h4, h5, h6, h7, h8, h9, eo, heo, h10, h11⟩ := hr
    rw [Option.isSome_iff_exists]
    refine ⟨r, (evalContract_eq_some_iff hlk).mpr
      ⟨h0, h1, h2, h3, h4, h5, h6, h7, h8, h9, eo, heo, ?_, h11⟩⟩
    intro hlt
    exact h10 (lt_of_lt_of_le hlt (show x ≤ y from hxy))

end Engine
end EveFlipper

namespace EveFlipper
namespace Engine

/-- C3 (amended).  On fixed fetched data, raising `min_margin_percent` never
increases the number of contract-scan results; `min_profit` and
`min_daily_volume` are not read by the contract scan at all, so raising them
leaves the results unchanged; and raising `min_priced_ratio` never increases
the count *provided the starting value is positive* — raising it from a
non-positive value can increase the count, because a non-positive knob selects
the stricter default `0.8`. -/
theorem contractScan_threshold_monotone (pexp : ℚ → ℚ) (p : ScanParams) (d : ScanData)
    (x y : ℚ) (hxy : x ≤ y) :
    (ScanContracts pexp { p with MinMargin := y } d).length ≤
        (ScanContracts pexp { p with MinMargin := x } d).length ∧
      ScanContracts pexp { p with MinProfit := y } d = ScanContracts pexp p d ∧
      ScanContracts pexp { p with MinDailyVolume := y } d = ScanContracts pexp p d ∧
      (0 < x →
        (ScanContracts pexp { p with MinPricedFrac := y } d).length ≤
          (ScanContracts pexp { p with MinPricedFrac := x } d).length) := by
  refine ⟨?_, rfl, rfl, ?_⟩
  · rw [scanContracts_length, scanContracts_length]
    exact min_le_min (le_refl _)
      (length_filterMap_mono _ _ _ (fun c hs => evalContract_isSome_anti_minMargin hxy c hs))
  · intro hx
    have hy : 0 < y := lt_of_lt_of_le hx hxy
    rw [scanContracts_length, scanContracts_length,
      getContractFilters_pricedFrac p y hy, getContractFilters_pricedFrac p x hx]
    exact min_le_min (le_refl _)
      (length_filterMap_mono _ _ _ (fun c hs => evalContract_isSome_anti_f hxy c hs))

end Engine
end EveFlipper

namespace EveFlipper
namespace Engine

theorem contractScan_threshold_monotone_witness :
    (1 : ℚ)/10 ≤ 1 ∧
      ((ScanContracts e0 { p0 with MinMargin := 1 } d0).length ≤
          (ScanContracts e0 { p0 with MinMargin := 1/10 } d0).length ∧
        ScanContracts e0 { p0 with MinProfit := 1 } d0 = ScanContracts e0 p0 d0 ∧
        ScanContracts e0 { p0 with MinDailyVolume := 1 } d0 = ScanContracts e0 p0 d0 ∧
        (0 < (1 : ℚ)/10 →
          (ScanContracts e0 { p0 with MinPricedFrac := 1 } d0).length ≤
            (ScanContracts e0 { p0 with MinPricedFrac := 1/10 } d0).length)) :=
  ⟨by norm_num, contractScan_threshold_monotone e0 p0 d0 (1/10) 1 (by norm_num)⟩

/-- A scan data set whose single contract has five item types, three of them
priced: a 0.6 priced ratio sits between a positive `min_priced_ratio` of 0.5
and the default 0.8 that a non-positive knob selects. -/
def d3 : ScanData :=
  { sellOrders :=
      [{ TypeID := 34, LocationID := 60000001, SystemID := 30000001, Price := 100000, VolumeRemain := 10 },
       { TypeID := 35, LocationID := 60000001, SystemID := 30000001, Price := 100000, VolumeRemain := 10 },
       { TypeID := 36, LocationID := 60000001, SystemID := 30000001, Price := 100000, VolumeRemain := 10 }],
    allContracts := [{ ContractID := 1, ctype := "item_exchange", Price := 10000000, StartLocationID := 60000001, Title := "x", Volume := 5, Expired := false }],
    contractItems := [(1,
      [{ TypeID := 34, Quantity := 50 }, { TypeID := 35, Quantity := 50 },
       { TypeID := 36, Quantity := 50 }, { TypeID := 37, Quantity := 1 },
       { TypeID := 38, Quantity := 1 }])],
    history :=
      [(34, { VWAP := 110000, DailyVolume := 10000 }),
       (35, { VWAP := 110000, DailyVolume := 10000 }),
       (36, { VWAP := 110000, DailyVolume := 10000 })],
    Stations := [(60000001, 30000001)],
    buySystems := [(30000001, 0)] }

theorem contractScan_threshold_counterexample :
    (0 : ℚ) ≤ 1/2 ∧
      (ScanContracts e0 { p0 with MinPricedFrac := 0 } d3).length <
        (ScanContracts e0 { p0 with MinPricedFrac := 1/2 } d3).length := by
  constructor
  · norm_num
  · have h1 : (ScanContracts e0 { p0 with MinPricedFrac := 0 } d3).length = 0 := by
      with_unfolding_all rfl
    have h2 : (ScanContracts e0 { p0 with MinPricedFrac := 1/2 } d3).length = 1 := by
      with_unfolding_all rfl
    omega

end Engine
end EveFlipper

namespace EveFlipper
namespace Engine

theorem contractScan_margin_capped_witness :
    r0 ∈ ScanContracts e0 p0 d0 ∧
      (r0.MarginPercent = r0.Profit / r0.Price * 100 ∧
        r0.MarginPercent ≤
          (if p0.MaxContractMargin ≤ 0 then DefaultMaxContractMargin
           else p0.MaxContractMargin)) := by
  have hr : r0 ∈ ScanContracts e0 p0 d0 := by
    rw [scan_d0]; exact List.mem_singleton_self r0
  exact ⟨hr, contractScan_margin_capped e0 p0 d0 r0 hr⟩

end Engine
end EveFlipper

namespace EveFlipper
namespace Api

/-- Modelled from the spec: the watchlist row
`{type_id, added_at, alert_enabled, alert_metric, alert_threshold}`
(§3; `config.WatchlistItem` is not among the provided sources), plus the
`AlertMinMargin` fallback field read by `CheckWatchlistAlerts`. -/
structure WatchlistItem where
  TypeID : Int := 0
  AlertEnabled : Bool := false
  AlertMetric : String := ""
  AlertThreshold : ℚ := 0
  AlertMinMargin : ℚ := 0

/-- `db.AlertHistoryEntry`.  `SentAt`, an RFC3339 UTC timestamp string in the
source (whose lexicographic order is chronological order), is modelled as
epoch seconds; the zero time is `0`. -/
structure AlertHistoryEntry where
  ID : Int := 0
  WatchlistTypeID : Int := 0
  TypeName : String := ""
  AlertMetric : String := ""
  AlertThreshold : ℚ := 0
  CurrentValue : ℚ := 0
  Message : String := ""
  ChannelsSent : List String := []
  ChannelsFailed : List (String × String) := []
  SentAt : Int := 0
  ScanID : Option Int := none
deriving DecidableEq

/-- The api-side `FlipResult` copy. -/
structure FlipResult where
  TypeID : Int := 0
  TypeName : String := ""
  MarginPercent : ℚ := 0
  TotalProfit : ℚ := 0
  ProfitPerUnit : ℚ := 0
  DailyVolume : Int := 0
  BuyPrice : ℚ := 0
  SellPrice : ℚ := 0
  UnitsToBuy : Int := 0
  BuyStation : String := ""
  SellStation : String := ""
  BuySystemName : String := ""
  SellSystemName : String := ""

/-- `AlertCheckResult`; `LastAlertAt` (a `time.Time`, zero when no previous
alert) is modelled as `Option Int` epoch seconds. -/
structure AlertCheckResult where
  ShouldAlert : Bool := false
  TypeID : Int := 0
  TypeName : String := ""
  Metric : String := ""
  Threshold : ℚ := 0
  CurrentValue : ℚ := 0
  Message : String := ""
  CooldownActive : Bool := false
  LastAlertAt : Option Int := none
deriving DecidableEq

/-- Minimum seconds between repeat alerts for the same item/metric/threshold. -/
def DefaultAlertCooldownSeconds : Int := 3600

/-- `extractFlipMetric`: the tracked metric of a flip row. -/
def extractFlipMetric (item : FlipResult) (metric : String) : ℚ :=
  if metric = "margin_percent" then item.MarginPercent
  else if metric = "total_profit" then item.TotalProfit
  else if metric = "profit_per_unit" then item.ProfitPerUnit
  else if metric = "daily_volume" then (item.DailyVolume : ℚ)
  else 0

/-- `extractMetricValue` on flip results: first row of the watched type. -/
def extractMetricValue (typeID : Int) (metric : String) (results : List FlipResult) :
    Option (ℚ × String) :=
  match results.find? (fun it => decide (it.TypeID = typeID)) with
  | some it => some (extractFlipMetric it metric, it.TypeName)
  | none => none

/-- `GetLastAlertTime`: the latest `sent_at` among history rows matching the
`(type, metric, threshold)` triple (`ORDER BY sent_at DESC LIMIT 1`); `none`
models the zero time returned when no row matches. -/
def GetLastAlertTime (hist : List AlertHistoryEntry) (typeID : Int) (metric : String)
    (threshold : ℚ) : Option Int :=
  ((hist.filter (fun e => decide (e.WatchlistTypeID = typeID) &&
      decide (e.AlertMetric = metric) && decide (e.AlertThreshold = threshold))).map
    (fun e => e.SentAt)).max?

/-- `CheckWatchlistAlerts` on flip results at instant `now`; `fmt` stands for
`formatAlertMessage` (type name, metric, threshold, current value). -/
def CheckWatchlistAlerts (fmt : String → String → ℚ → ℚ → String)
    (watchlist : List WatchlistItem) (hist : List AlertHistoryEntry)
    (now : Int) (results : List FlipResult) : List AlertCheckResult :=
  watchlist.filterMap (fun item =>
    if item.AlertEnabled = false then none
    else
      let metric := if item.AlertMetric = "" then "margin_percent" else item.AlertMetric
      let threshold : ℚ := if item.AlertThreshold ≤ (0 : ℚ) then item.AlertMinMargin
        else item.AlertThreshold
      if threshold ≤ (0 : ℚ) then none
      else
        match extractMetricValue item.TypeID metric results with
        | none => none
        | some (currentValue, typeName) =>
          if currentValue < threshold then none
          else
            match GetLastAlertTime hist item.TypeID metric threshold with
            | some last =>
              if now - last < DefaultAlertCooldownSeconds then none
              else some
                { ShouldAlert := true, TypeID := item.TypeID, TypeName := typeName,
                  Metric := metric, Threshold := threshold, CurrentValue := currentValue,
                  Message := fmt typeName metric threshold currentValue,
                  CooldownActive := false, LastAlertAt := some last }
            | none =>
              some
                { ShouldAlert := true, TypeID := item.TypeID, TypeName := typeName,
                  Metric := metric, Threshold := threshold, CurrentValue := currentValue,
                  Message := fmt typeName metric threshold currentValue,
                  CooldownActive := false, LastAlertAt := none })

/-- The effective metric of a watchlist row (empty string defaults). -/
def effMetric (item : WatchlistItem) : String :=
  if item.AlertMetric = "" then "margin_percent" else item.AlertMetric

/-- The effective threshold of a watchlist row (non-positive falls back). -/
def effThreshold (item : WatchlistItem) : ℚ :=
  if item.AlertThreshold ≤ 0 then item.AlertMinMargin else item.AlertThreshold

end Api
end EveFlipper

namespace EveFlipper
namespace Api

theorem mem_checkWatchlistAlerts {fmt : String → String → ℚ → ℚ → String}
    {wl : List WatchlistItem} {hist : List AlertHistoryEntry} {now : Int}
    {results : List FlipResult} {a : AlertCheckResult}
    (ha : a ∈ CheckWatchlistAlerts fmt wl hist now results) :
    ∃ item ∈ wl, a.TypeID = item.TypeID ∧ a.Metric = effMetric item ∧
      a.Threshold = effThreshold item ∧
      ∀ last, GetLastAlertTime hist item.TypeID (effMetric item) (effThreshold item) =
          some last → ¬ now - last < DefaultAlertCooldownSeconds := by
  obtain ⟨item, hitem, hbody⟩ := List.mem_filterMap.mp ha
  refine ⟨item, hitem, ?_⟩
  by_cases hen : item.AlertEnabled = false
  · rw [if_pos hen] at hbody; exact absurd hbody (by simp)
  · rw [if_neg hen] at hbody
    dsimp only at hbody
    have hmR : (if item.AlertMetric = "" then "margin_percent" else item.AlertMetric) =
        effMetric item := rfl
    have hthR : (if item.AlertThreshold ≤ (0 : ℚ) then item.AlertMinMargin
        else item.AlertThreshold) = effThreshold item := rfl
    rw [hmR, hthR] at hbody
    by_cases h0 : effThreshold item ≤ 0
    · rw [if_pos h0] at hbody; exact absurd hbody (by simp)
    · rw [if_neg h0] at hbody
      cases hext : extractMetricValue item.TypeID (effMetric item) results with
      | none => rw [hext] at hbody; exact absurd hbody (by simp)
      | some p =>
        obtain ⟨cv, tn⟩ := p
        rw [hext] at hbody
        dsimp only at hbody
        by_cases hcv : cv < effThreshold item
        · rw [if_pos hcv] at hbody; exact absurd hbody (by simp)
        · rw [if_neg hcv] at hbody
          cases hlast : GetLastAlertTime hist item.TypeID (effMetric item)
              (effThreshold item) with
          | some last =>
            rw [hlast] at hbody
            dsimp only at hbody
            by_cases hcd : now - last < DefaultAlertCooldownSeconds
            · rw [if_pos hcd] at hbody; exact absurd hbody (by simp)
            · rw [if_neg hcd] at hbody
              rw [Option.some.injEq] at hbody
              subst hbody
              refine ⟨rfl, rfl, rfl, fun l hl => ?_⟩
              have h2 := Option.some.inj hl
              subst h2
              exact hcd
          | none =>
            rw [hlast] at hbody
            dsimp only at hbody
            rw [Option.some.injEq] at hbody
            subst hbody
            refine ⟨rfl, rfl, rfl, fun l hl => ?_⟩
            exact absurd hl (by simp)

end Api
end EveFlipper

namespace EveFlipper
namespace Api

instance : Std.Antisymm (fun x1 x2 : Int => x1 ≤ x2) := ⟨fun h1 h2 => le_antisymm h1 h2⟩

/-- C6.  If an alert for the triple `(type, metric, threshold)` is recorded in
history at `t₀`, `CheckWatchlistAlerts` produces no alert for that same triple
at any instant before `t₀ + 3600`; and a watchlist row whose effective
threshold differs from every recorded threshold for that type and metric is
not blocked: it yields its alert (with no previous-alert timestamp). -/
theorem checkWatchlistAlerts_cooldown (fmt : String → String → ℚ → ℚ → String)
    (wl : List WatchlistItem) (hist : List AlertHistoryEntry) (now : Int)
    (results : List FlipResult) (tid : Int) (m : String) (th : ℚ) :
    ((∃ e ∈ hist, e.WatchlistTypeID = tid ∧ e.AlertMetric = m ∧ e.AlertThreshold = th ∧
        now < e.SentAt + DefaultAlertCooldownSeconds) →
      ∀ a ∈ CheckWatchlistAlerts fmt wl hist now results,
        ¬(a.TypeID = tid ∧ a.Metric = m ∧ a.Threshold = th)) ∧
    (∀ (item : WatchlistItem) (th2 : ℚ) (cv : ℚ) (tn : String),
      item.AlertEnabled = true →
      effMetric item = m → effThreshold item = th2 → 0 < th2 →
      item.TypeID = tid →
      extractMetricValue tid m results = some (cv, tn) →
      ¬ cv < th2 →
      (∀ e ∈ hist, e.WatchlistTypeID = tid → e.AlertMetric = m → e.AlertThreshold ≠ th2) →
      CheckWatchlistAlerts fmt [item] hist now results =
        [{ ShouldAlert := true, TypeID := tid, TypeName := tn, Metric := m, Threshold := th2,
           CurrentValue := cv, Message := fmt tn m th2 cv, CooldownActive := false,
           LastAlertAt := none }]) := by
  constructor
  · rintro ⟨e, he, he1, he2, he3, he4⟩ a ha ⟨h1, h2, h3⟩
    obtain ⟨item, _, htid, hmet, hth, hcool⟩ := mem_checkWatchlistAlerts ha
    have htid2 : item.TypeID = tid := htid.symm.trans h1
    have hm2 : effMetric item = m := hmet.symm.trans h2
    have hth2 : effThreshold item = th := hth.symm.trans h3
    have hefilter : e ∈ hist.filter (fun e2 => decide (e2.WatchlistTypeID = tid) &&
        decide (e2.AlertMetric = m) && decide (e2.AlertThreshold = th)) :=
      List.mem_filter.mpr ⟨he, by simp [he1, he2, he3]⟩
    cases hql : GetLastAlertTime hist tid m th with
    | none =>
      unfold GetLastAlertTime at hql
      rw [List.max?_eq_none_iff, List.map_eq_nil_iff] at hql
      rw [hql] at hefilter
      exact absurd hefilter (List.not_mem_nil e)
    | some last =>
      have hmem : e.SentAt ∈ (hist.filter (fun e2 => decide (e2.WatchlistTypeID = tid) &&
          decide (e2.AlertMetric = m) && decide (e2.AlertThreshold = th))).map
            (fun e2 => e2.SentAt) :=
        List.mem_map_of_mem _ hefilter
      have hle : e.SentAt ≤ last := by
        have hspec := (List.max?_eq_some_iff (fun x => le_refl x) (fun a b => max_choice a b)
          (fun a b c => max_le_iff)).mp hql
        exact hspec.2 _ hmem
      have hncd := hcool last (by rw [htid2, hm2, hth2]; exact hql)
      unfold DefaultAlertCooldownSeconds at he4 hncd
      omega
  · intro item th2 cv tn hen hm hth hpos htid hext hcv hblock
    have hnone : GetLastAlertTime hist tid m th2 = none := by
      unfold GetLastAlertTime
      rw [List.max?_eq_none_iff, List.map_eq_nil_iff, List.filter_eq_nil_iff]
      intro e he
      simp only [Bool.and_eq_true, decide_eq_true_eq, not_and]
      intro he1 he3
      exact hblock e he he1.1 he1.2 he3
    unfold CheckWatchlistAlerts
    rw [List.filterMap_cons]
    rw [if_neg (by rw [hen]; simp : ¬ item.AlertEnabled = false)]
    dsimp only
    have hmR : (if item.AlertMetric = "" then "margin_percent" else item.AlertMetric) =
        effMetric item := rfl
    have hthR : (if item.AlertThreshold ≤ (0 : ℚ) then item.AlertMinMargin
        else item.AlertThreshold) = effThreshold item := rfl
    rw [hmR, hthR, hm, hth, htid]
    rw [if_neg (not_le.mpr hpos)]
    rw [hext]
    dsimp only
    rw [if_neg hcv]
    rw [hnone]
    dsimp only
    rw [List.filterMap_nil]

end Api
end EveFlipper

namespace EveFlipper
namespace Api

def fmt0 : String → String → ℚ → ℚ → String := fun tn _ _ _ => tn

def e6 : AlertHistoryEntry :=
  { WatchlistTypeID := 34, AlertMetric := "margin_percent", AlertThreshold := 10,
    SentAt := 1000 }

def item6 : WatchlistItem :=
  { TypeID := 34, AlertEnabled := true, AlertMetric := "margin_percent",
    AlertThreshold := 12 }

def results6 : List FlipResult :=
  [{ TypeID := 34, TypeName := "Tritanium", MarginPercent := 15 }]

theorem checkWatchlistAlerts_cooldown_witness :
    (∀ a ∈ CheckWatchlistAlerts fmt0 [item6] [e6] 2000 results6,
        ¬(a.TypeID = 34 ∧ a.Metric = "margin_percent" ∧ a.Threshold = 10)) ∧
      CheckWatchlistAlerts fmt0 [item6] [e6] 2000 results6 =
        [{ ShouldAlert := true, TypeID := 34, TypeName := "Tritanium",
           Metric := "margin_percent", Threshold := 12, CurrentValue := 15,
           Message := fmt0 ("Tritanium") ("margin_percent") 12 15, CooldownActive := false,
           LastAlertAt := none }] := by
  obtain ⟨ha, hb⟩ := checkWatchlistAlerts_cooldown fmt0 [item6] [e6] 2000 results6 34
    ("margin_percent") 10
  refine ⟨ha ⟨e6, List.mem_singleton_self e6, rfl, rfl, rfl,
    by norm_num [e6, DefaultAlertCooldownSeconds]⟩, ?_⟩
  refine hb item6 12 15 ("Tritanium") rfl (by with_unfolding_all rfl)
    (by with_unfolding_all rfl) (by norm_num) rfl (by with_unfolding_all rfl)
    (by norm_num) ?_
  intro e he h1 h2
  rw [List.mem_singleton] at he
  subst he
  norm_num [e6]

end Api
end EveFlipper

namespace EveFlipper
namespace Api

/-- Modelled from the spec: the server configuration read by `SendAlert`
(`s.cfg` is not among the provided sources); only the desktop-channel flag is
consulted there. -/
structure ServerConfig where
  AlertDesktop : Bool := false

/-- The outcome of `sendConfiguredExternalAlerts`: per-channel send results. -/
structure ExternalSendResult where
  Sent : List String := []
  Failed : List (String × String) := []

/-- The history entry `SendAlert` records via `db.SaveAlertHistory`; `ext` is
the external fan-out result and `now` the send instant. -/
def sendAlertEntry (cfg : ServerConfig) (ext : ExternalSendResult)
    (alert : AlertCheckResult) (scanID : Option Int) (now : Int) : AlertHistoryEntry :=
  { WatchlistTypeID := alert.TypeID, TypeName := alert.TypeName,
    AlertMetric := alert.Metric, AlertThreshold := alert.Threshold,
    CurrentValue := alert.CurrentValue, Message := alert.Message,
    ChannelsSent := if cfg.AlertDesktop then ext.Sent ++ ["desktop"] else ext.Sent,
    ChannelsFailed := ext.Failed, SentAt := now, ScanID := scanID }

/-- C8 (amended).  The desktop channel is appended to the recorded
`channels_sent` — without any external send attempt — exactly when the
server's desktop-alert flag is set; with the flag off the recorded list is the
external result alone, so the inclusion is *not* unconditional. -/
theorem sendAlert_desktop_channel (cfg : ServerConfig) (ext : ExternalSendResult)
    (alert : AlertCheckResult) (sid : Option Int) (now : Int) :
    (cfg.AlertDesktop = true →
        (sendAlertEntry cfg ext alert sid now).ChannelsSent = ext.Sent ++ ["desktop"]) ∧
      (cfg.AlertDesktop = false →
        (sendAlertEntry cfg ext alert sid now).ChannelsSent = ext.Sent) := by
  constructor <;> intro h <;> simp [sendAlertEntry, h]

theorem sendAlert_desktop_channel_witness :
    (sendAlertEntry { AlertDesktop := true } {} {} none 0).ChannelsSent =
        [] ++ ["desktop"] ∧
      (sendAlertEntry { AlertDesktop := false } {} {} none 0).ChannelsSent = [] :=
  ⟨(sendAlert_desktop_channel { AlertDesktop := true } {} {} none 0).1 rfl,
   (sendAlert_desktop_channel { AlertDesktop := false } {} {} none 0).2 rfl⟩

theorem sendAlert_desktop_counterexample :
    ¬ ("desktop" ∈ (sendAlertEntry { AlertDesktop := false } {} {} none 0).ChannelsSent) := by
  simp [sendAlertEntry]

end Api
end EveFlipper

namespace EveFlipper
namespace Db

/-- The `engine.FlipResult` columns inserted into `flip_results`. -/
structure FlipResult where
  TypeID : Int := 0
  TypeName : String := ""
  Volume : ℚ := 0
  BuyPrice : ℚ := 0
  BuyStation : String := ""
  BuySystemName : String := ""
  BuySystemID : Int := 0
  SellPrice : ℚ := 0
  SellStation : String := ""
  SellSystemName : String := ""
  SellSystemID : Int := 0
  ProfitPerUnit : ℚ := 0
  MarginPercent : ℚ := 0
  UnitsToBuy : Int := 0
  BuyOrderRemain : Int := 0
  SellOrderRemain : Int := 0
  TotalProfit : ℚ := 0
  ProfitPerJump : ℚ := 0
  BuyJumps : Int := 0
  SellJumps : Int := 0
  TotalJumps : Int := 0
deriving DecidableEq

/-- The `flip_results` table: rows keyed by `scan_id`, in insertion order. -/
abbrev FlipResultsTable : Type := List (Int × FlipResult)

/-- `InsertFlipResults`: early-outs on a zero scan id or an empty batch, then
runs the whole batch inside one transaction.  `beginOk`, `prepareOk` and
`commitOk` model the fallible `Begin`/`Prepare`/`Commit` calls: on any failure
the transaction leaves the table untouched (a failed prepare rolls back, a
failed commit does not apply).  `execOk i` models the outcome of the i-th
`stmt.Exec`, whose error the source silently discards: a row whose insert
fails is simply missing while the remaining rows still commit, so a commit
persists exactly the successfully executed rows. -/
def InsertFlipResults (beginOk prepareOk : Bool) (execOk : ℕ → Bool) (commitOk : Bool)
    (db : FlipResultsTable) (scanID : Int) (results : List FlipResult) : FlipResultsTable :=
  if scanID = 0 ∨ results.isEmpty then db
  else if beginOk = false then db
  else if prepareOk = false then db
  else if commitOk = false then db
  else db ++ (results.enum.filter (fun p => execOk p.1)).map (fun p => (scanID, p.2))

/-- `GetFlipResults`: the rows recorded under a scan id, in order. -/
def GetFlipResults (db : FlipResultsTable) (scanID : Int) : List FlipResult :=
  (List.filter (fun p => decide (p.1 = scanID)) db).map Prod.snd

/-- C9 (amended).  `InsertFlipResults` runs the whole batch inside one write
transaction, but the source discards every per-row `stmt.Exec` error and
commits regardless, so a failed row insert leaves a partial result set.
Atomicity holds provided every per-row insert succeeds: then, whatever the
outcomes of `Begin`/`Prepare`/`Commit`, the table is either untouched or
extended by the whole batch at once, and the rows readable under a fresh scan
id afterwards are either none or exactly the given list. -/
theorem insertFlipResults_atomic (beginOk prepareOk : Bool) (execOk : ℕ → Bool)
    (commitOk : Bool) (db : FlipResultsTable) (scanID : Int) (results : List FlipResult)
    (hfresh : ∀ p ∈ db, p.1 ≠ scanID)
    (hexec : ∀ i, i < results.length → execOk i = true) :
    (InsertFlipResults beginOk prepareOk execOk commitOk db scanID results = db ∨
        InsertFlipResults beginOk prepareOk execOk commitOk db scanID results =
          db ++ results.map (fun r => (scanID, r))) ∧
      (GetFlipResults (InsertFlipResults beginOk prepareOk execOk commitOk db scanID
            results) scanID = [] ∨
        GetFlipResults (InsertFlipResults beginOk prepareOk execOk commitOk db scanID
            results) scanID = results) := by
  have hf : List.filter (fun p => decide (p.1 = scanID)) db = [] :=
    List.filter_eq_nil_iff.mpr (fun p hp => by
      simp only [decide_eq_true_eq]
      exact hfresh p hp)
  have hdbempty : GetFlipResults db scanID = [] := by
    unfold GetFlipResults
    rw [hf]
    rfl
  unfold InsertFlipResults
  by_cases h1 : scanID = 0 ∨ results.isEmpty
  · rw [if_pos h1]; exact ⟨Or.inl rfl, Or.inl hdbempty⟩
  · rw [if_neg h1]
    by_cases h2 : beginOk = false
    · rw [if_pos h2]; exact ⟨Or.inl rfl, Or.inl hdbempty⟩
    · rw [if_neg h2]
      by_cases h3 : prepareOk = false
      · rw [if_pos h3]; exact ⟨Or.inl rfl, Or.inl hdbempty⟩
      · rw [if_neg h3]
        by_cases h4 : commitOk = false
        · rw [if_pos h4]; exact ⟨Or.inl rfl, Or.inl hdbempty⟩
        · rw [if_neg h4]
          have henum : results.enum.filter (fun p => execOk p.1) = results.enum :=
            List.filter_eq_self.mpr (fun p hp => by
              have hlt : p.1 < results.length := by
                have := List.fst_lt_add_of_mem_enumFrom hp
                simpa using this
              exact hexec p.1 hlt)
          have hmap : (results.enum.filter (fun p => execOk p.1)).map
                (fun p => (scanID, p.2)) = results.map (fun r => (scanID, r)) := by
            rw [henum]
            have h2 : results.enum.map (fun p => (scanID, p.2)) =
                (results.enum.map Prod.snd).map (fun r => (scanID, r)) := by
              rw [List.map_map]
              rfl
            rw [h2, List.enum_map_snd]
          rw [hmap]
          refine ⟨Or.inr rfl, Or.inr ?_⟩
          unfold GetFlipResults
          rw [List.filter_append, hf, List.nil_append]
          have hall : List.filter (fun p => decide (p.1 = scanID))
              (results.map fun r => (scanID, r)) = results.map fun r => (scanID, r) :=
            List.filter_eq_self.mpr (fun p hp => by
              obtain ⟨r, hr, hpr⟩ := List.mem_map.mp hp
              rw [← hpr]
              simp)
          rw [hall, List.map_map]
          simp

end Db
end EveFlipper

namespace EveFlipper
namespace Db

theorem insertFlipResults_atomic_witness :
    (∀ p ∈ ([] : FlipResultsTable), p.1 ≠ 1) ∧
      (∀ i, i < ([({} : FlipResult)]).length → (fun _ : ℕ => true) i = true) ∧
      ((InsertFlipResults true true (fun _ => true) true [] 1 [{}] = [] ∨
          InsertFlipResults true true (fun _ => true) true [] 1 [{}] =
            [] ++ [({} : FlipResult)].map (fun r => ((1 : Int), r))) ∧
        (GetFlipResults (InsertFlipResults true true (fun _ => true) true [] 1 [{}]) 1 =
            [] ∨
          GetFlipResults (InsertFlipResults true true (fun _ => true) true [] 1 [{}]) 1 =
            [{}])) :=
  ⟨fun p hp => absurd hp (List.not_mem_nil p), fun _ _ => rfl,
    insertFlipResults_atomic true true (fun _ => true) true [] 1 [{}]
      (fun p hp => absurd hp (List.not_mem_nil p)) (fun _ _ => rfl)⟩

/-- The original unconditional atomicity claim fails at the discarded per-row
`stmt.Exec` error: when the first of two rows fails to execute and the second
succeeds, the commit persists a partial result set — the rows read back under
the scan id are neither empty nor the full batch. -/
theorem insertFlipResults_partial_counterexample :
    GetFlipResults (InsertFlipResults true true (fun i => decide (i = 1)) true [] 1
        [{ TypeID := 101 }, { TypeID := 102 }]) 1 = [{ TypeID := 102 }] ∧
      ¬(GetFlipResults (InsertFlipResults true true (fun i => decide (i = 1)) true [] 1
            [{ TypeID := 101 }, { TypeID := 102 }]) 1 = [] ∨
        GetFlipResults (InsertFlipResults true true (fun i => decide (i = 1)) true [] 1
            [{ TypeID := 101 }, { TypeID := 102 }]) 1 =
          [{ TypeID := 101 }, { TypeID := 102 }]) := by
  constructor
  · with_unfolding_all rfl
  · with_unfolding_all decide

end Db
end EveFlipper
